import Mathlib

/-!
# Conjur backend helpers of cyberark-aam-pkiaas

A shallow embedding of `internal/backend/conjur/helper.go` and the properties
of its resource addressing, annotation lookup, revocation parsing, expiration
check and template substitution.

Conventions of the embedding

* A Go `string` is a list of characters (`GoString`).  The separators, keys and
  placeholders of the helpers are ASCII, so on well-formed UTF-8 text the
  byte-wise operations of package `strings` agree with the character-wise ones
  used here.
* A Go function that can abort with a run-time panic returns in `Except GoPanic`;
  a Go result pair `(v, err)` is the pair `(v, err?)` with `err? : Option GoError`.
* `int` and `int64` are 64 bits wide; integers are `Int` with the range checks
  of `strconv` written out.
* A `time.Time` is its 64-bit count of seconds, its nanoseconds and its
  location; the second counts wrap around as in Go.  The rules of the local
  time zone of the process are a parameter (`localRules`).
-/

set_option autoImplicit false

namespace Conjur

/-! ## Go run-time values -/

/-- Text of a Go `string`. -/
abbrev GoString := List Char

/-- Run-time panics the helpers can raise. -/
inductive GoPanic where
  /-- Indexing a slice of length `length` at `index`. -/
  | indexOutOfRange (index length : Nat)
  /-- Failed type assertion `x.(T)`. -/
  | interfaceConversion
  deriving DecidableEq, Repr

/-- Value of Go's `error` interface when it is not nil: the message text. -/
structure GoError where
  msg : GoString
  deriving DecidableEq, Repr

/-- Dynamic value held in an `interface{}`, as decoded from a Conjur resource
document. -/
inductive GoValue where
  /-- The nil interface (also the result of indexing a map at an absent key). -/
  | nil
  /-- Dynamic type `string`. -/
  | str (s : GoString)
  /-- Dynamic type `[]interface{}`. -/
  | slice (elems : List GoValue)
  /-- Dynamic type `map[string]interface{}`. -/
  | map (entries : List (GoString × GoValue))
  /-- Any other dynamic type (bool, float64, ...). -/
  | other (tag : Nat)

deriving instance DecidableEq for Except

/-- Representation of a `map[string]interface{}`: an association list read at
the first entry of a key. -/
abbrev GoMap := List (GoString × GoValue)

/-- Map index expression `m[key]`: the nil interface when the key is absent. -/
def GoMap.index : GoMap → GoString → GoValue
  | [], _ => GoValue.nil
  | (k, v) :: rest, key => if k = key then v else GoMap.index rest key

/-- Type assertion `v.(string)`. -/
def GoValue.assertString : GoValue → Except GoPanic GoString
  | GoValue.str s => Except.ok s
  | _ => Except.error GoPanic.interfaceConversion

/-- Type assertion `v.([]interface{})`. -/
def GoValue.assertSlice : GoValue → Except GoPanic (List GoValue)
  | GoValue.slice elems => Except.ok elems
  | _ => Except.error GoPanic.interfaceConversion

/-- Type assertion `v.(map[string]interface{})`. -/
def GoValue.assertMap : GoValue → Except GoPanic GoMap
  | GoValue.map entries => Except.ok entries
  | _ => Except.error GoPanic.interfaceConversion

/-- Slice index expression `xs[i]`, which panics when `i` is out of range. -/
def sliceIndex {α : Type} (xs : List α) (i : Nat) : Except GoPanic α :=
  match xs.get? i with
  | some x => Except.ok x
  | none => Except.error (GoPanic.indexOutOfRange i xs.length)

/-! ## Package `strings` -/

/-- Go `strings.Cut(s, sep)` for a one-character separator: the text before and
after the first `sep`, or `none` when `s` has no `sep`. -/
def Cut (sep : Char) : GoString → Option (GoString × GoString)
  | [] => none
  | c :: cs =>
    if c = sep then some ([], cs)
    else match Cut sep cs with
      | some (before, after) => some (c :: before, after)
      | none => none

/-- Go `strings.Count(s, sep)` for a one-character separator. -/
def Count (s : GoString) (sep : Char) : Nat :=
  (s.filter (fun c => c = sep)).length

/-- Go `strings.SplitN(s, sep, n)` for a one-character separator and `n ≥ 0`:
at most `n` pieces, the last one being the unsplit remainder. -/
def SplitN (sep : Char) : GoString → Nat → List GoString
  | _, 0 => []
  | s, 1 => [s]
  | s, n + 2 =>
    match Cut sep s with
    | none => [s]
    | some (before, after) => before :: SplitN sep after (n + 1)

/-- Go `strings.Split(s, sep)`, which is `SplitN` with `Count(s, sep) + 1`
pieces. -/
def Split (sep : Char) (s : GoString) : List GoString :=
  SplitN sep s (Count s sep + 1)

/-- Go `strings.Join(elems, sep)`. -/
def Join : List GoString → GoString → GoString
  | [], _ => []
  | [a], _ => a
  | a :: b :: rest, sep => a ++ sep ++ Join (b :: rest) sep

/-- Lower-case mapping of one character.  Letters `A`..`Z` move to `a`..`z`;
the mapping of characters outside ASCII is left out, which does not change any
comparison with the text `true`, since no character outside ASCII has `t`,
`r`, `u` or `e` as its lower case. -/
def toLowerChar (c : Char) : Char :=
  if 65 ≤ c.toNat ∧ c.toNat ≤ 90 then Char.ofNat (c.toNat + 32) else c

/-- Go `strings.ToLower`. -/
def ToLower (s : GoString) : GoString := s.map toLowerChar

/-- Go `strings.ReplaceAll(s, old, new)` for a non-empty `old`, scanning left to
right: `skip` counts the characters of the current occurrence of `old` still to
be dropped. -/
def replaceFrom (old new : GoString) : Nat → GoString → GoString
  | _, [] => []
  | skip + 1, _ :: cs => replaceFrom old new skip cs
  | 0, c :: cs =>
    if old.isPrefixOf (c :: cs) then new ++ replaceFrom old new (old.length - 1) cs
    else c :: replaceFrom old new 0 cs

/-- Go `strings.ReplaceAll(s, old, new)`: every non-overlapping occurrence of
`old` replaced by `new`; an empty `old` matches before every character and at
the end. -/
def ReplaceAll (s old new : GoString) : GoString :=
  if old = [] then new ++ s.flatMap (fun c => c :: new)
  else replaceFrom old new 0 s

/-! ## Package `strconv` -/

/-- Errors of `strconv.ParseInt`. -/
inductive NumError where
  | errSyntax
  | errRange
  deriving DecidableEq, Repr

/-- Value of a decimal digit, `none` for any other character. -/
def digitValue (c : Char) : Option Nat :=
  if 48 ≤ c.toNat ∧ c.toNat ≤ 57 then some (c.toNat - 48) else none

/-- Value of a run of decimal digits continuing the value `acc`; `none` when a
character is not a digit. -/
def digitsValue : Nat → GoString → Option Nat
  | acc, [] => some acc
  | acc, c :: cs =>
    match digitValue c with
    | some d => digitsValue (10 * acc + d) cs
    | none => none

/-- The integer a text denotes in decimal: an optional sign `+` or `-` followed
by one or more digits.  There is no bound on the size. -/
def decimalValue : GoString → Option Int
  | [] => none
  | c :: cs =>
    if c = '+' then
      (if cs = [] then none else (digitsValue 0 cs).map Int.ofNat)
    else if c = '-' then
      (if cs = [] then none else (digitsValue 0 cs).map (fun n => - Int.ofNat n))
    else (digitsValue 0 (c :: cs)).map Int.ofNat

/-- Smallest value of a signed 64-bit integer. -/
def minInt64 : Int := -(2 ^ 63)

/-- Largest value of a signed 64-bit integer. -/
def maxInt64 : Int := 2 ^ 63 - 1

/-- Go `strconv.ParseInt(s, 10, 64)`: a syntax error for a text that is not a
signed run of digits, a range error for a value that does not fit 64 bits. -/
def ParseInt (s : GoString) : Except NumError Int :=
  match decimalValue s with
  | none => Except.error NumError.errSyntax
  | some v =>
    if minInt64 ≤ v ∧ v ≤ maxInt64 then Except.ok v
    else Except.error NumError.errRange

/-- Go `strconv.Atoi(s)`, which is `ParseInt(s, 10, 0)` with the 64-bit `int`. -/
def Atoi (s : GoString) : Except NumError Int := ParseInt s

/-! ## Package `time` -/

/-- Value of a 64-bit signed integer computation: the result modulo 2^64, read
in the range from -2^63 to 2^63 - 1. -/
def wrapInt64 (x : Int) : Int := (x + 2 ^ 63) % 2 ^ 64 - 2 ^ 63

/-- Value of a 64-bit unsigned integer computation: the result modulo 2^64. -/
def wrapUint64 (x : Int) : Int := x % 2 ^ 64

/-- Location a `time.Time` carries: the nil pointer stands for UTC,
`time.Unix` sets `Local`. -/
inductive Location where
  | UTC
  | Local
  deriving DecidableEq, Repr

/-- What `(*Location).lookup(sec)` returns for a Unix time `sec`: the offset in
seconds east of UTC in force at `sec`, and the Unix times `start` and `finish`
between which it is in force (`finish` excluded). -/
structure ZoneInfo where
  offset : Int
  start : Int
  finish : Int
  deriving DecidableEq, Repr

/-- The rules of a time zone: the `lookup` function of its `Location`. -/
abbrev ZoneRules := Int → ZoneInfo

/-- The `lookup` function of the UTC location: offset 0 at all times. -/
def utcRules : ZoneRules := fun _ => { offset := 0, start := minInt64, finish := maxInt64 }

/-- The rules of a location, `localRules` being those of the process's local
time zone. -/
def Location.rules (localRules : ZoneRules) : Location → ZoneRules
  | Location.UTC => utcRules
  | Location.Local => localRules

/-- A `time.Time`: `ext` is what `t.sec()` returns, the seconds since January 1
of year 1, 00:00:00 UTC, a signed 64-bit count; `nsec` is what `t.nsec()`
returns, the nanoseconds within the second.  The monotonic clock reading a
`time.Time` may carry is left out: `After` uses it only when both times have
one, and a time made by `time.Unix` or `AddDate` has none. -/
structure Time where
  ext : Int
  nsec : Nat
  loc : Location
  deriving DecidableEq, Repr

/-- Seconds from January 1 of year 1 to January 1, 1970 (Go `unixToInternal`). -/
def unixToInternal : Int := 62135596800

/-- Go `internalToUnix`. -/
def internalToUnix : Int := -unixToInternal

/-- Go `absoluteToInternal`: seconds from the absolute epoch of package `time`
(January 1 of year -292277022399) to January 1 of year 1. -/
def absoluteToInternal : Int := -9223371966579724800

/-- Go `internalToAbsolute`. -/
def internalToAbsolute : Int := -absoluteToInternal

/-- Seconds in a day. -/
def secondsPerDay : Int := 86400

/-- The zero value `time.Time{}`: January 1 of year 1, 00:00:00 UTC. -/
def Time.zero : Time := { ext := 0, nsec := 0, loc := Location.UTC }

/-- Go `time.Unix(sec, 0)`: the second count `sec + unixToInternal` is a 64-bit
sum. -/
def Time.ofUnix (sec : Int) : Time :=
  { ext := wrapInt64 (sec + unixToInternal), nsec := 0, loc := Location.Local }

/-- Go `t.unixSec()`: seconds since the Unix epoch. -/
def Time.unixSec (t : Time) : Int := wrapInt64 (t.ext + internalToUnix)

/-- Go `t.abs()`: the wall-clock seconds of `t` in its location, counted from
the absolute epoch as an unsigned 64-bit number. -/
def Time.abs (localRules : ZoneRules) (t : Time) : Int :=
  let sec := t.unixSec
  let sec :=
    match t.loc with
    | Location.UTC => sec
    | Location.Local => wrapInt64 (sec + (localRules sec).offset)
  wrapUint64 (sec + (unixToInternal + internalToAbsolute))

/-- Go `t.AddDate(0, 0, days)`, which is `Date(year, month, day+days, hour,
min, sec, nsec, t.Location())` for the date and clock read off `t.abs()`.  The
day count of that date moves by `days`, so the absolute seconds move by
`86400 * days` in unsigned 64-bit arithmetic; `Date` then takes the offset in
force at that wall-clock reading off the zone rules to come back to UTC. -/
def Time.AddDate (localRules : ZoneRules) (t : Time) (days : Int) : Time :=
  let rules := t.loc.rules localRules
  let abs := wrapUint64 (t.abs localRules + secondsPerDay * days)
  let unix := wrapInt64 (abs + (absoluteToInternal + internalToUnix))
  let zone := rules unix
  let unix :=
    if zone.offset ≠ 0 then
      let utc := wrapInt64 (unix - zone.offset)
      let offset :=
        if utc < zone.start ∨ utc ≥ zone.finish then (rules utc).offset else zone.offset
      wrapInt64 (unix - offset)
    else unix
  { ext := wrapInt64 (unix + unixToInternal), nsec := t.nsec, loc := t.loc }

/-- Go `t.After(u)` for times without monotonic clock reading: the seconds are
compared, then the nanoseconds. -/
def Time.After (t u : Time) : Bool :=
  decide (t.ext > u.ext ∨ (t.ext = u.ext ∧ t.nsec > u.nsec))

/-- Go `StringToTime`: an epoch-seconds text to `time.Time`. -/
def StringToTime (s : GoString) : Time × Option NumError :=
  match ParseInt s with
  | Except.error err => (Time.zero, some err)
  | Except.ok sec => (Time.ofUnix sec, none)

/-! ## Package `types` -/

/-- Modelled from the spec: the record `types.RevokedCertificate` of package
`internal/types`, whose declaration is not among the sources; the spec gives it
as `{SerialNumber: string, ReasonCode: int, RevocationDate: timestamp}`. -/
structure RevokedCertificate where
  SerialNumber : GoString
  ReasonCode : Int
  RevocationDate : Time
  deriving DecidableEq, Repr

/-- The zero value `types.RevokedCertificate{}`. -/
def RevokedCertificate.empty : RevokedCertificate :=
  { SerialNumber := [], ReasonCode := 0, RevocationDate := Time.zero }

/-- Modelled from the spec: a record of package `internal/types`
(`types.Template`, `types.CreateCertificateData`) as reflection sees it, the
declarations not being among the sources: its fields in declaration order, each
with its name and the text `fmt.Sprintf("%v", value)` of its value. -/
abbrev Record := List (GoString × GoString)

/-! ## helper.go -/

/-- Body of the loop of `ReplaceTemplate` and `ReplaceCertificate` for one
field: every `<Name>` in the text becomes the text of the field value. -/
def replaceField (text : GoString) (field : GoString × GoString) : GoString :=
  ReplaceAll text ("<".toList ++ field.1 ++ ">".toList) field.2

/-- Go `ReplaceTemplate`: the fields are substituted one after the other, in
declaration order, each over the whole text produced so far. -/
def ReplaceTemplate (template : Record) (templateContent : GoString) : GoString :=
  template.foldl replaceField templateContent

/-- Go `ReplaceCertificate`: the same loop over the fields of the certificate
data. -/
def ReplaceCertificate (cert : Record) (certificateContent : GoString) : GoString :=
  cert.foldl replaceField certificateContent

/-- Go `SplitConjurID`: account, kind and id of a full resource id.  The three
index expressions are evaluated from left to right. -/
def SplitConjurID (fullID : GoString) : Except GoPanic (GoString × GoString × GoString) := do
  let parts := SplitN ':' fullID 3
  let account ← sliceIndex parts 0
  let kind ← sliceIndex parts 1
  let id ← sliceIndex parts 2
  return (account, kind, id)

/-- Go `GetFullResourceID`. -/
def GetFullResourceID (account kind id : GoString) : GoString :=
  Join [account, kind, id] ":".toList

section

/- `sprintV resource` is the text `fmt` prints for a resource document under
the verb `%v`; it only occurs inside error messages and is left open.
`localRules` are the zone rules of the process's local time zone, the location
of every time made by `time.Unix`. -/
variable (sprintV : GoMap → GoString)
variable (localRules : ZoneRules)

/-- The loop of `GetAnnotationValue`: value and `keyFound` after scanning the
list, stopping at the first entry whose name is `key`. -/
def scanAnnotations (key : GoString) : List GoValue → Except GoPanic (GoString × Bool)
  | [] => Except.ok ([], false)
  | entry :: rest => do
    let a ← entry.assertMap
    let keyName ← (a.index "name".toList).assertString
    if keyName = key then
      let value ← (a.index "value".toList).assertString
      return (value, true)
    else scanAnnotations key rest

/-- Go `GetAnnotationValue`. -/
def GetAnnotationValue (resource : GoMap) (key : GoString) :
    Except GoPanic (GoString × Option GoError) := do
  let annotations ← (resource.index "annotations".toList).assertSlice
  let (value, keyFound) ← scanAnnotations key annotations
  if !keyFound then
    return (value, some ⟨"Failed to find annotation \x27".toList ++ key ++
      "\x27 on resource \x27".toList ++ sprintV resource ++ "\x27".toList⟩)
  return (value, none)

/-- Go `ParseRevokedCertificate`. -/
def ParseRevokedCertificate (resource : GoMap) :
    Except GoPanic (RevokedCertificate × Option GoError) := do
  let fullID ← (resource.index "id".toList).assertString
  let (_, _, id) ← SplitConjurID fullID
  let parts := Split '/' id
  let serialNumberString ← sliceIndex parts (parts.length - 1)
  let (revoked, err) ← GetAnnotationValue sprintV resource "Revoked".toList
  if let some e := err then
    return (RevokedCertificate.empty,
      some ⟨"Failed to retrieve Revoked from certificate \x27".toList ++ serialNumberString ++
        "\x27. ".toList ++ e.msg⟩)
  if ToLower revoked ≠ "true".toList then
    return (RevokedCertificate.empty, none)
  let (reasonCode, err) ← GetAnnotationValue sprintV resource "RevocationReasonCode".toList
  if let some e := err then
    return (RevokedCertificate.empty,
      some ⟨"Failed to retrieve RevocationReasonCode from certificate \x27".toList ++
        serialNumberString ++ "\x27. ".toList ++ e.msg⟩)
  let (revocationDate, err) ← GetAnnotationValue sprintV resource "RevocationDate".toList
  if let some e := err then
    return (RevokedCertificate.empty,
      some ⟨"Failed to retrieve RevocationDate from certificate \x27".toList ++
        serialNumberString ++ "\x27. ".toList ++ e.msg⟩)
  match Atoi reasonCode with
  | Except.error _ =>
    return (RevokedCertificate.empty,
      some ⟨"Failed to cast RevocationReasonCode \x27".toList ++ reasonCode ++
        "\x27 into an int".toList⟩)
  | Except.ok reasonCodeInt =>
    match Atoi revocationDate with
    | Except.error _ =>
      return (RevokedCertificate.empty,
        some ⟨"Failed to cast RevocationDate \x27".toList ++ revocationDate ++
          "\x27 into an int".toList⟩)
    | Except.ok revocationDateInt =>
      let dateTime := Time.ofUnix revocationDateInt
      let revokedCert : RevokedCertificate :=
        { SerialNumber := serialNumberString
          ReasonCode := reasonCodeInt
          RevocationDate := dateTime }
      return (revokedCert, none)

/-- Go `IsCertificateExpired`. -/
def IsCertificateExpired (resource : GoMap) (currentTime : Time) (dayBuffer : Int) :
    Except GoPanic Bool := do
  let (value, err) ← GetAnnotationValue sprintV resource "ExpirationDate".toList
  if err.isSome then
    return false
  let (expirationTime, err) := StringToTime value
  if err.isSome then
    return false
  let expirationTime := expirationTime.AddDate localRules dayBuffer
  return currentTime.After expirationTime

end

/-- Go `strings.TrimLeft(s, cutset)`: `s` without its leading characters that
occur in `cutset`. -/
def TrimLeft (s cutset : GoString) : GoString :=
  s.dropWhile (fun c => decide (c ∈ cutset))

/-- Go `strings.Contains(s, substr)` for a one-character `substr`. -/
def Contains (s : GoString) (c : Char) : Bool := decide (c ∈ s)

/-- An `x509.Certificate`, of which `getPem` reads the DER bytes `Raw`. -/
structure Certificate where
  Raw : List Nat
  deriving DecidableEq, Repr

/-- Lines 186 to 191 of `getPem`: the address handed to `tls.Dial`, which is the
url after `strings.TrimLeft(url, "https://")`, with `:443` appended when it has
no `:`. -/
def dialAddress (url : GoString) : GoString :=
  let url := TrimLeft url "https://".toList
  if !Contains url ':' then url ++ ":443".toList else url

section

/- `tlsDial addr` is the outcome of `tls.Dial("tcp", addr, conf)`: an error, or
the connection, of which only `ConnectionState().PeerCertificates` is read.
`pemEncode typ bytes` is the text of
`pem.EncodeToMemory(&pem.Block{Type: typ, Bytes: bytes})`. -/
variable (tlsDial : GoString → Except GoError (List Certificate))
variable (pemEncode : GoString → List Nat → GoString)

/-- Go `getPem`. -/
def getPem (url : GoString) : Except GoPanic (GoString × Option GoError) := do
  let url := dialAddress url
  match tlsDial url with
  | Except.error err =>
    return ([], some ⟨"Failed to retrieve certificate from \x27".toList ++ url ++
      "\x27. ".toList ++ err.msg⟩)
  | Except.ok peerCertificates =>
    if peerCertificates.length ≠ 2 then
      return ([], some ⟨"Invalid Conjur url \x27".toList ++ url ++
        "\x27. Make sure hostname and port are correct".toList⟩)
    let first ← sliceIndex peerCertificates 0
    let pemCert := pemEncode "CERTIFICATE".toList first.Raw
    let second ← sliceIndex peerCertificates 1
    let secondPemCert := pemEncode "CERTIFICATE".toList second.Raw
    let pemCert := pemCert ++ secondPemCert
    return (pemCert, none)

end

/-! ## Reading the claims -/

/-- Name and value of one well-typed annotation: a map whose `name` and `value`
entries are strings. -/
def annotationPair : GoValue → Option (GoString × GoString)
  | GoValue.map m =>
    match GoMap.index m "name".toList, GoMap.index m "value".toList with
    | GoValue.str n, GoValue.str v => some (n, v)
    | _, _ => none
  | _ => none

/-- Names and values of a list of annotations when every one is well typed. -/
def decodeAnnotations : List GoValue → Option (List (GoString × GoString))
  | [] => some []
  | e :: rest =>
    match annotationPair e, decodeAnnotations rest with
    | some p, some ps => some (p :: ps)
    | _, _ => none

/-- The annotation list of a resource, in store order, when it is well typed:
the `annotations` entry is a slice of maps with string `name` and `value`. -/
def annotationsOf (resource : GoMap) : Option (List (GoString × GoString)) :=
  match resource.index "annotations".toList with
  | GoValue.slice elems => decodeAnnotations elems
  | _ => none

/-- Value of the first annotation named `key`, if there is one. -/
def firstValue (key : GoString) : List (GoString × GoString) → Option GoString
  | [] => none
  | (n, v) :: rest => if n = key then some v else firstValue key rest

/-- Text after the first `sep` of `s` (empty when there is none). -/
def afterFirst (sep : Char) (s : GoString) : GoString :=
  (s.dropWhile (fun c => c ≠ sep)).drop 1

/-- The id component of a full resource id: the text after its second `:`. -/
def idComponent (fullID : GoString) : GoString :=
  afterFirst ':' (afterFirst ':' fullID)

/-- Text after the last `sep` of `s` (all of `s` when there is none). -/
def afterLast (sep : Char) (s : GoString) : GoString :=
  (s.reverse.takeWhile (fun c => c ≠ sep)).reverse

/-- The message of the error `GetAnnotationValue` returns for a missing key. -/
def notFoundError (sprintV : GoMap → GoString) (resource : GoMap) (key : GoString) : GoError :=
  ⟨"Failed to find annotation \x27".toList ++ key ++
      "\x27 on resource \x27".toList ++ sprintV resource ++ "\x27".toList⟩

/-- ASCII capital letter. -/
def isUpperASCII (c : Char) : Bool := decide (65 ≤ c.toNat ∧ c.toNat ≤ 90)

/-- Two characters that are equal or are the capital and the small form of one
ASCII letter. -/
def sameLetter (a b : Char) : Bool :=
  decide (a = b) || (isUpperASCII a && decide (b.toNat = a.toNat + 32)) ||
    (isUpperASCII b && decide (a.toNat = b.toNat + 32))

/-- Two texts that are equal when the case of ASCII letters is ignored. -/
def equalsIgnoringCase : GoString → GoString → Bool
  | [], [] => true
  | a :: s, b :: t => sameLetter a b && equalsIgnoringCase s t
  | _, _ => false

/-- Days from January 1, 1970 to the given day of the proleptic Gregorian
calendar (`month` from 1 to 12). -/
def daysFromCivil (year month day : Int) : Int :=
  let y := if month ≤ 2 then year - 1 else year
  let era := y / 400
  let yoe := y - era * 400
  let mp := (month + 9) % 12
  let doy := (153 * mp + 2) / 5 + day - 1
  let doe := yoe * 365 + yoe / 4 - yoe / 100 + doy
  era * 146097 + doe - 719468

/-- Unix seconds of a date and clock reading in UTC. -/
def unixOfUTC (year month day hour minute second : Int) : Int :=
  daysFromCivil year month day * secondsPerDay + hour * 3600 + minute * 60 + second

/-- Nanoseconds from the Unix epoch to the instant of `t`, as an unbounded
integer. -/
def Time.instantNanos (t : Time) : Int :=
  (t.ext - unixToInternal) * 1000000000 + t.nsec

/-- The rules of America/New_York around 2024: UTC-5 until March 10, 2024,
07:00 UTC, UTC-4 until November 3, 2024, 06:00 UTC, and UTC-5 after. -/
def newYork2024 : ZoneRules := fun sec =>
  if sec < 1710054000 then { offset := -18000, start := 1699164000, finish := 1710054000 }
  else if sec < 1730613600 then { offset := -14400, start := 1710054000, finish := 1730613600 }
  else { offset := -18000, start := 1730613600, finish := 1741503600 }

/-- An annotation document `{"name": name, "value": value}`. -/
def mkAnnotation (name value : String) : GoValue :=
  GoValue.map [("name".toList, GoValue.str name.toList), ("value".toList, GoValue.str value.toList)]

/-- A resource document with a string id and a list of string annotations. -/
def mkResource (id : String) (anns : List (String × String)) : GoMap :=
  [("id".toList, GoValue.str id.toList),
   ("annotations".toList, GoValue.slice (anns.map (fun a => mkAnnotation a.1 a.2)))]

/-- A rendering of resource documents for `%v` used at concrete inputs. -/
def sprintNone : GoMap → GoString := fun _ => "map[]".toList

/-- A piece of a template text: plain text, or a token `<name>`. -/
inductive Piece where
  | text (s : GoString)
  | token (name : GoString)
  deriving DecidableEq, Repr

/-- The text of a piece. -/
def Piece.render : Piece → GoString
  | Piece.text s => s
  | Piece.token name => "<".toList ++ name ++ ">".toList

/-- The text made of a list of pieces. -/
def renderPieces : List Piece → GoString
  | [] => []
  | p :: ps => p.render ++ renderPieces ps

/-- A piece in which `<` and `>` occur only as the delimiters of the token. -/
def Piece.plain : Piece → Bool
  | Piece.text s => decide ('<' ∉ s ∧ '>' ∉ s)
  | Piece.token name => decide ('<' ∉ name ∧ '>' ∉ name)

/-- A piece after rendering with a record: a token named after a field becomes
the text of the field value, every other piece stays. -/
def Piece.fill (record : Record) : Piece → Piece
  | Piece.text s => Piece.text s
  | Piece.token name =>
    match firstValue name record with
    | some value => Piece.text value
    | none => Piece.token name

/-- A text that `strconv` reads as a signed 64-bit integer. -/
def isInt64Text (s : GoString) : Bool :=
  match decimalValue s with
  | some v => decide (minInt64 ≤ v ∧ v ≤ maxInt64)
  | none => false

/-- The annotation `key` is present and its first value reads as a signed
64-bit integer. -/
def hasInt64 (key : GoString) (anns : List (GoString × GoString)) : Bool :=
  match firstValue key anns with
  | some v => isInt64Text v
  | none => false

/-- The text a PEM encoder stands for at concrete inputs: the type and the
bytes written out between brackets. -/
def pemSample (typ : GoString) (bytes : List Nat) : GoString :=
  "[".toList ++ typ ++ ":".toList ++ bytes.map Char.ofNat ++ "]".toList

/-! ## Lemmas -/

theorem wrapInt64_of_range (x : Int) (h1 : minInt64 ≤ x) (h2 : x ≤ maxInt64) :
    wrapInt64 x = x := by
  simp only [wrapInt64, minInt64, maxInt64] at *
  omega

theorem scanAnnotations_decoded (key : GoString) (elems : List GoValue) :
    ∀ anns, decodeAnnotations elems = some anns →
      scanAnnotations key elems =
        Except.ok (match firstValue key anns with
          | some v => (v, true)
          | none => ([], false)) := by
  induction elems with
  | nil =>
    intro anns h
    simp [decodeAnnotations] at h
    subst h
    rfl
  | cons e rest ih =>
    intro anns h
    cases e with
    | map m =>
      simp only [decodeAnnotations, annotationPair] at h
      split at h
      · rename_i p ps hp hps
        split at hp
        · rename_i n v hn hv
          simp at hp h
          subst hp h
          simp only [scanAnnotations, GoValue.assertMap, hn, hv, GoValue.assertString, bind,
            Except.bind, firstValue, pure, Except.pure]
          by_cases hk : n = key
          · simp [hk]
          · simp [hk, ih ps hps]
        · simp at hp
      · simp at h
    | _ => simp [decodeAnnotations, annotationPair] at h

theorem GetAnnotationValue_decoded (sprintV : GoMap → GoString) (resource : GoMap)
    (key : GoString) (anns : List (GoString × GoString))
    (h : annotationsOf resource = some anns) :
    GetAnnotationValue sprintV resource key =
      Except.ok (match firstValue key anns with
        | some v => (v, none)
        | none => ([], some (notFoundError sprintV resource key))) := by
  unfold annotationsOf at h
  split at h
  · rename_i elems he
    simp only [GetAnnotationValue, he, GoValue.assertSlice, bind, Except.bind,
      scanAnnotations_decoded key elems anns h]
    cases firstValue key anns <;> simp [pure, Except.pure, notFoundError]
  · simp at h


theorem Cut_eq_none (sep : Char) (s : GoString) (h : sep ∉ s) : Cut sep s = none := by
  induction s with
  | nil => rfl
  | cons c cs ih =>
    simp only [List.mem_cons, not_or] at h
    have hc : c ≠ sep := fun e => h.1 e.symm
    simp [Cut, hc, ih h.2]

theorem Cut_append (sep : Char) (before after : GoString) (h : sep ∉ before) :
    Cut sep (before ++ sep :: after) = some (before, after) := by
  induction before with
  | nil => simp [Cut]
  | cons c cs ih =>
    simp only [List.mem_cons, not_or] at h
    have hc : c ≠ sep := fun e => h.1 e.symm
    simp [Cut, hc, ih h.2]

theorem Cut_of_mem (sep : Char) (s : GoString) (h : sep ∈ s) :
    Cut sep s = some (s.takeWhile (fun c => c ≠ sep), afterFirst sep s) := by
  induction s with
  | nil => simp at h
  | cons c cs ih =>
    by_cases hc : c = sep
    · simp [Cut, hc, afterFirst, List.takeWhile, List.dropWhile]
    · have hm : sep ∈ cs := by
        rcases List.mem_cons.mp h with e | e
        · exact absurd e.symm hc
        · exact e
      simp [Cut, hc, ih hm, afterFirst, List.takeWhile, List.dropWhile]

theorem Count_pos_iff (sep : Char) (s : GoString) : 0 < Count s sep ↔ sep ∈ s := by
  induction s with
  | nil => simp [Count]
  | cons c cs ih =>
    by_cases hc : c = sep
    · simp [Count, hc, List.filter]
    · have hc2 : ¬ sep = c := fun e => hc e.symm
      simp only [Count] at ih
      simp [Count, hc, hc2, List.filter, ih]

theorem Count_afterFirst (sep : Char) (s : GoString) :
    Count (afterFirst sep s) sep = Count s sep - 1 := by
  induction s with
  | nil => simp [Count, afterFirst]
  | cons c cs ih =>
    by_cases hc : c = sep
    · simp [Count, hc, afterFirst, List.filter, List.dropWhile]
    · simp only [Count, afterFirst, List.filter, List.dropWhile, hc, decide_False, ne_eq,
        not_false_eq_true, decide_True]
      simpa [Count, afterFirst] using ih


theorem SplitN_three (s : GoString) (h : 2 ≤ Count s ':') :
    SplitN ':' s 3 =
      [s.takeWhile (fun c => c ≠ ':'),
       (afterFirst ':' s).takeWhile (fun c => c ≠ ':'),
       idComponent s] := by
  have h1 : ':' ∈ s := (Count_pos_iff ':' s).mp (by omega)
  have h2 : ':' ∈ afterFirst ':' s :=
    (Count_pos_iff ':' _).mp (by rw [Count_afterFirst]; omega)
  simp [SplitN, Cut_of_mem ':' s h1, Cut_of_mem ':' _ h2, idComponent]

theorem SplitConjurID_of_two_colons (fullID : GoString) (h : 2 ≤ Count fullID ':') :
    SplitConjurID fullID =
      Except.ok (fullID.takeWhile (fun c => c ≠ ':'),
        (afterFirst ':' fullID).takeWhile (fun c => c ≠ ':'),
        idComponent fullID) := by
  simp [SplitConjurID, SplitN_three fullID h, sliceIndex, bind, Except.bind, pure, Except.pure]

theorem takeWhile_append_stop {α : Type} (p : α → Bool) (l1 l2 : List α) (x : α)
    (hx : p x = false) : (l1 ++ x :: l2).takeWhile p = l1.takeWhile p := by
  induction l1 with
  | nil => simp [List.takeWhile, hx]
  | cons a l ih =>
    cases hp : p a <;> simp [List.takeWhile, hp, ih]

theorem afterLast_of_not_mem (sep : Char) (s : GoString) (h : sep ∉ s) :
    afterLast sep s = s := by
  have : s.reverse.takeWhile (fun c => c ≠ sep) = s.reverse := by
    apply List.takeWhile_eq_self_iff.mpr
    intro c hc
    have hc2 : c ∈ s := List.mem_reverse.mp hc
    have : c ≠ sep := fun e => h (e ▸ hc2)
    simpa using this
  unfold afterLast
  rw [this]
  exact List.reverse_reverse s

theorem afterLast_afterFirst (sep : Char) (s : GoString) (h : sep ∈ s) :
    afterLast sep (afterFirst sep s) = afterLast sep s := by
  have hs : s = s.takeWhile (fun c => c ≠ sep) ++ sep :: afterFirst sep s := by
    induction s with
    | nil => simp at h
    | cons c cs ih =>
      by_cases hc : c = sep
      · simp [hc, afterFirst, List.takeWhile, List.dropWhile]
      · have hm : sep ∈ cs := by
          rcases List.mem_cons.mp h with e | e
          · exact absurd e.symm hc
          · exact e
        have := ih hm
        simp only [afterFirst] at this
        simp [hc, afterFirst, List.takeWhile, List.dropWhile]
        simpa using this
  conv => rhs; rw [hs]
  simp only [afterLast, List.reverse_append, List.reverse_cons, List.append_assoc,
    List.singleton_append]
  rw [takeWhile_append_stop]
  simp

theorem SplitN_ne_nil (sep : Char) (s : GoString) (n : Nat) : SplitN sep s (n + 1) ≠ [] := by
  cases n with
  | zero => simp [SplitN]
  | succ n =>
    simp only [SplitN]
    split <;> simp

theorem SplitN_getLast (sep : Char) (n : Nat) :
    ∀ s : GoString, Count s sep < n → (SplitN sep s n).getLast? = some (afterLast sep s) := by
  induction n with
  | zero => intro s h; omega
  | succ n ih =>
    intro s h
    cases n with
    | zero =>
      have hm : sep ∉ s := fun hm => by
        have := (Count_pos_iff sep s).mpr hm
        omega
      simp [SplitN, afterLast_of_not_mem sep s hm]
    | succ n =>
      by_cases hm : sep ∈ s
      · have hc : Count (afterFirst sep s) sep < n + 1 := by
          rw [Count_afterFirst]
          have := (Count_pos_iff sep s).mpr hm
          omega
        have hl := ih (afterFirst sep s) hc
        simp only [SplitN, Cut_of_mem sep s hm]
        cases hS : SplitN sep (afterFirst sep s) (n + 1) with
        | nil => exact absurd hS (SplitN_ne_nil sep _ n)
        | cons b l =>
          rw [hS] at hl
          rw [List.getLast?_cons_cons, hl, afterLast_afterFirst sep s hm]
      · simp [SplitN, Cut_eq_none sep s hm, afterLast_of_not_mem sep s hm]

theorem Split_getLast (sep : Char) (s : GoString) :
    (Split sep s).getLast? = some (afterLast sep s) :=
  SplitN_getLast sep (Count s sep + 1) s (Nat.lt_succ_self _)

theorem sliceIndex_last {α : Type} (xs : List α) (x : α) (h : xs.getLast? = some x) :
    sliceIndex xs (xs.length - 1) = Except.ok x := by
  rw [List.getLast?_eq_getElem?] at h
  simp [sliceIndex, List.get?_eq_getElem?, h]


/-- Where `ParseRevokedCertificate` ends on a resource with a string id of at
least two `:` and a well-typed annotation list. -/
theorem ParseRevokedCertificate_decoded (sprintV : GoMap → GoString) (resource : GoMap)
    (fullID : GoString) (anns : List (GoString × GoString))
    (hid : (resource.index "id".toList).assertString = Except.ok fullID)
    (hcolons : 2 ≤ Count fullID ':')
    (hanns : annotationsOf resource = some anns) :
    ParseRevokedCertificate sprintV resource =
      Except.ok
        (match firstValue "Revoked".toList anns with
        | none =>
          (RevokedCertificate.empty,
            some ⟨"Failed to retrieve Revoked from certificate \x27".toList ++
              afterLast '/' (idComponent fullID) ++ "\x27. ".toList ++
              (notFoundError sprintV resource "Revoked".toList).msg⟩)
        | some revoked =>
          if ToLower revoked ≠ "true".toList then (RevokedCertificate.empty, none)
          else
            match firstValue "RevocationReasonCode".toList anns with
            | none =>
              (RevokedCertificate.empty,
                some ⟨"Failed to retrieve RevocationReasonCode from certificate \x27".toList ++
                  afterLast '/' (idComponent fullID) ++ "\x27. ".toList ++
                  (notFoundError sprintV resource "RevocationReasonCode".toList).msg⟩)
            | some reasonCode =>
              match firstValue "RevocationDate".toList anns with
              | none =>
                (RevokedCertificate.empty,
                  some ⟨"Failed to retrieve RevocationDate from certificate \x27".toList ++
                    afterLast '/' (idComponent fullID) ++ "\x27. ".toList ++
                    (notFoundError sprintV resource "RevocationDate".toList).msg⟩)
              | some revocationDate =>
                match Atoi reasonCode with
                | Except.error _ =>
                  (RevokedCertificate.empty,
                    some ⟨"Failed to cast RevocationReasonCode \x27".toList ++ reasonCode ++
                      "\x27 into an int".toList⟩)
                | Except.ok r =>
                  match Atoi revocationDate with
                  | Except.error _ =>
                    (RevokedCertificate.empty,
                      some ⟨"Failed to cast RevocationDate \x27".toList ++ revocationDate ++
                        "\x27 into an int".toList⟩)
                  | Except.ok d =>
                    ({ SerialNumber := afterLast '/' (idComponent fullID)
                       ReasonCode := r
                       RevocationDate := Time.ofUnix d }, none)) := by
  unfold ParseRevokedCertificate
  simp only [hid, SplitConjurID_of_two_colons fullID hcolons,
    sliceIndex_last _ _ (Split_getLast '/' (idComponent fullID)),
    GetAnnotationValue_decoded sprintV resource _ anns hanns, bind, Except.bind, pure,
    Except.pure]
  cases firstValue "Revoked".toList anns with
  | none => rfl
  | some revoked =>
    dsimp only
    by_cases ht : ToLower revoked = "true".toList
    · simp only [ht, ne_eq, not_true_eq_false, if_false]
      cases firstValue "RevocationReasonCode".toList anns with
      | none => rfl
      | some reasonCode =>
        cases firstValue "RevocationDate".toList anns with
        | none => rfl
        | some revocationDate =>
          dsimp only
          cases Atoi reasonCode with
          | error e => rfl
          | ok r =>
            dsimp only
            cases Atoi revocationDate with
            | error e => rfl
            | ok d => rfl
    · simp only [ht, ne_eq, not_false_eq_true, if_true]

theorem toLowerChar_eq_iff (c l : Char) (hl : l = 't' ∨ l = 'r' ∨ l = 'u' ∨ l = 'e') :
    toLowerChar c = l ↔ sameLetter c l = true := by
  by_cases hu : 65 ≤ c.toNat ∧ c.toNat ≤ 90
  · obtain ⟨h1, h2⟩ := hu
    have hc : c = Char.ofNat c.toNat := (Char.ofNat_toNat c).symm
    generalize c.toNat = k at h1 h2 hc
    subst hc
    interval_cases k <;> rcases hl with h | h | h | h <;> subst h <;> decide
  · have hl2 : isUpperASCII l = false := by
      rcases hl with h | h | h | h <;> subst h <;> decide
    have hu2 : isUpperASCII c = false := by simp [isUpperASCII, hu]
    simp [toLowerChar, hu, sameLetter, hl2, hu2]

theorem ToLower_eq_true_iff (s : GoString) :
    ToLower s = "true".toList ↔ equalsIgnoringCase s "true".toList = true := by
  have ht := fun c => toLowerChar_eq_iff c 't' (Or.inl rfl)
  have hr := fun c => toLowerChar_eq_iff c 'r' (Or.inr (Or.inl rfl))
  have hu := fun c => toLowerChar_eq_iff c 'u' (Or.inr (Or.inr (Or.inl rfl)))
  have he := fun c => toLowerChar_eq_iff c 'e' (Or.inr (Or.inr (Or.inr rfl)))
  match s with
  | [] => decide
  | [_] => simp [ToLower, equalsIgnoringCase]
  | [_, _] => simp [ToLower, equalsIgnoringCase]
  | [_, _, _] => simp [ToLower, equalsIgnoringCase]
  | [a, b, c, d] => simp [ToLower, equalsIgnoringCase, ht, hr, hu, he, and_assoc]
  | _ :: _ :: _ :: _ :: _ :: _ => simp [ToLower, equalsIgnoringCase]

theorem firstValue_eq_none_iff (key : GoString) (anns : List (GoString × GoString)) :
    firstValue key anns = none ↔ ∀ a ∈ anns, a.1 ≠ key := by
  induction anns with
  | nil => simp [firstValue]
  | cons a rest ih =>
    obtain ⟨n, v⟩ := a
    by_cases hn : n = key
    · simp [firstValue, hn]
    · simp [firstValue, hn, ih]

theorem firstValue_eq_some_iff (key v : GoString) (anns : List (GoString × GoString)) :
    firstValue key anns = some v ↔
      ∃ before after, anns = before ++ (key, v) :: after ∧ ∀ a ∈ before, a.1 ≠ key := by
  induction anns with
  | nil => simp [firstValue]
  | cons a rest ih =>
    obtain ⟨n, w⟩ := a
    by_cases hn : n = key
    · subst hn
      constructor
      · intro h
        simp only [firstValue, if_true, Option.some.injEq] at h
        subst h
        exact ⟨[], rest, rfl, by simp⟩
      · rintro ⟨before, after, heq, hb⟩
        cases before with
        | nil =>
          simp only [List.nil_append, List.cons.injEq, Prod.mk.injEq] at heq
          simp [firstValue, heq.1.2]
        | cons b bs =>
          simp only [List.cons_append, List.cons.injEq] at heq
          have := hb b (List.mem_cons_self _ _)
          rw [← heq.1] at this
          exact absurd rfl this
    · simp only [firstValue, hn, if_false, ih]
      constructor
      · rintro ⟨before, after, heq, hb⟩
        refine ⟨(n, w) :: before, after, by simp [heq], ?_⟩
        intro a ha
        rcases List.mem_cons.mp ha with e | e
        · subst e
          exact hn
        · exact hb a e
      · rintro ⟨before, after, heq, hb⟩
        cases before with
        | nil =>
          simp only [List.nil_append, List.cons.injEq, Prod.mk.injEq] at heq
          exact absurd heq.1.1 hn
        | cons b bs =>
          simp only [List.cons_append, List.cons.injEq] at heq
          exact ⟨bs, after, heq.2, fun a ha => hb a (List.mem_cons_of_mem _ ha)⟩

theorem ParseInt_of_decimalValue (s : GoString) (v : Int) (h : decimalValue s = some v)
    (hmin : minInt64 ≤ v) (hmax : v ≤ maxInt64) : ParseInt s = Except.ok v := by
  simp [ParseInt, h, hmin, hmax]

theorem afterFirst_of_parts (sep : Char) (before after : GoString) (h : sep ∉ before) :
    afterFirst sep (before ++ sep :: after) = after := by
  induction before with
  | nil => simp [afterFirst, List.dropWhile]
  | cons c cs ih =>
    simp only [List.mem_cons, not_or] at h
    have hc : c ≠ sep := fun e => h.1 e.symm
    have := ih h.2
    simp only [afterFirst] at this
    simp [afterFirst, List.dropWhile, hc]
    simpa using this

/-- The id component of `account:kind:id` is `id`, whatever `id` holds. -/
theorem idComponent_of_parts (account kind id : GoString)
    (haccount : ':' ∉ account) (hkind : ':' ∉ kind) :
    idComponent (account ++ ':' :: (kind ++ ':' :: id)) = id := by
  rw [idComponent, afterFirst_of_parts ':' account _ haccount,
    afterFirst_of_parts ':' kind _ hkind]

/-- The text after the last `sep` of `dir ++ sep :: name` is `name` when `name`
has no `sep`. -/
theorem afterLast_of_parts (sep : Char) (dir name : GoString) (h : sep ∉ name) :
    afterLast sep (dir ++ sep :: name) = name := by
  have hrev : (dir ++ sep :: name).reverse = name.reverse ++ sep :: dir.reverse := by
    simp
  have hstop : (fun c => decide (c ≠ sep)) sep = false := by simp
  have hname : afterLast sep name = name := afterLast_of_not_mem sep name h
  unfold afterLast at hname ⊢
  rw [hrev, takeWhile_append_stop (fun c => decide (c ≠ sep)) _ _ sep hstop, hname]

/-! ## Claims -/

/-- C1 (as amended): on a resource whose id has at least two `:`, whose first
`Revoked` value equals `true` ignoring case, and whose first
`RevocationReasonCode` and `RevocationDate` values are decimal texts of integers
`r` and `d`, where `r` fits the signed 64-bit range and `d` lies between -2^63
and 2^63 - 1 - 62135596800 (so that the second count of the date does not wrap
around), `ParseRevokedCertificate` returns no error and the record made of the
text after the last `/` of the id component, `r`, and the instant `d` seconds
after the Unix epoch, held in the location `Local`. -/
theorem c1_parse_revoked_record (sprintV : GoMap → GoString) (resource : GoMap)
    (fullID : GoString) (anns : List (GoString × GoString))
    (revoked reasonCode revocationDate : GoString) (r d : Int)
    (hid : (resource.index "id".toList).assertString = Except.ok fullID)
    (hcolons : 2 ≤ Count fullID ':')
    (hanns : annotationsOf resource = some anns)
    (hrevoked : firstValue "Revoked".toList anns = some revoked)
    (htrue : equalsIgnoringCase revoked "true".toList = true)
    (hreason : firstValue "RevocationReasonCode".toList anns = some reasonCode)
    (hr : decimalValue reasonCode = some r)
    (hrange : minInt64 ≤ r ∧ r ≤ maxInt64)
    (hdate : firstValue "RevocationDate".toList anns = some revocationDate)
    (hd : decimalValue revocationDate = some d)
    (hdrange : minInt64 ≤ d ∧ d ≤ maxInt64 - unixToInternal) :
    ParseRevokedCertificate sprintV resource =
      Except.ok
        ({ SerialNumber := afterLast '/' (idComponent fullID)
           ReasonCode := r
           RevocationDate :=
             { ext := d + unixToInternal, nsec := 0, loc := Location.Local } }, none) ∧
      ({ ext := d + unixToInternal, nsec := 0, loc := Location.Local } : Time).instantNanos =
        d * 1000000000 := by
  have hlow := (ToLower_eq_true_iff revoked).mpr htrue
  have hdmax : d ≤ maxInt64 := by
    have := hdrange.2
    simp only [maxInt64, unixToInternal] at this ⊢
    omega
  have h1 : Atoi reasonCode = Except.ok r :=
    ParseInt_of_decimalValue reasonCode r hr hrange.1 hrange.2
  have h2 : Atoi revocationDate = Except.ok d :=
    ParseInt_of_decimalValue revocationDate d hd hdrange.1 hdmax
  have h3 : Time.ofUnix d = { ext := d + unixToInternal, nsec := 0, loc := Location.Local } := by
    have hw : wrapInt64 (d + unixToInternal) = d + unixToInternal := by
      apply wrapInt64_of_range
      · have := hdrange.1
        simp only [minInt64, unixToInternal] at this ⊢
        omega
      · have := hdrange.2
        omega
    simp only [Time.ofUnix, hw]
  refine ⟨?_, by simp [Time.instantNanos]⟩
  rw [ParseRevokedCertificate_decoded sprintV resource fullID anns hid hcolons hanns]
  simp only [hrevoked, hlow, hreason, hdate, h1, h2, h3, ne_eq, not_true_eq_false, if_false]

/-- C1, the example of the claim: `Revoked` = `TRUE`, reason `1` and date
`1700000000` give reason code 1 and the instant 2023-11-14T22:13:20Z. -/
theorem c1_parse_revoked_record_witness :
    ((mkResource "acct:variable:pki/certificates/1234"
        [("Revoked", "TRUE"), ("RevocationReasonCode", "1"),
         ("RevocationDate", "1700000000")]).index "id".toList).assertString =
      Except.ok "acct:variable:pki/certificates/1234".toList ∧
    2 ≤ Count "acct:variable:pki/certificates/1234".toList ':' ∧
    equalsIgnoringCase "TRUE".toList "true".toList = true ∧
    decimalValue "1".toList = some 1 ∧
    decimalValue "1700000000".toList = some 1700000000 ∧
    unixOfUTC 2023 11 14 22 13 20 = 1700000000 ∧
    (ParseRevokedCertificate sprintNone
        (mkResource "acct:variable:pki/certificates/1234"
          [("Revoked", "TRUE"), ("RevocationReasonCode", "1"),
           ("RevocationDate", "1700000000")]) =
      Except.ok
        ({ SerialNumber := "1234".toList
           ReasonCode := 1
           RevocationDate :=
             { ext := 1700000000 + unixToInternal, nsec := 0, loc := Location.Local } }, none) ∧
      ({ ext := 1700000000 + unixToInternal, nsec := 0, loc := Location.Local } :
          Time).instantNanos = 1700000000 * 1000000000) :=
  ⟨by decide, by decide, by decide, by decide, by decide, by decide,
    c1_parse_revoked_record sprintNone
      (mkResource "acct:variable:pki/certificates/1234"
        [("Revoked", "TRUE"), ("RevocationReasonCode", "1"),
         ("RevocationDate", "1700000000")])
      "acct:variable:pki/certificates/1234".toList
      [("Revoked".toList, "TRUE".toList), ("RevocationReasonCode".toList, "1".toList),
       ("RevocationDate".toList, "1700000000".toList)]
      "TRUE".toList "1".toList "1700000000".toList 1 1700000000
      (by decide) (by decide) (by decide) (by decide) (by decide) (by decide) (by decide)
      (by decide) (by decide) (by decide) (by decide)⟩

/-- C1 as stated fails beyond 64 bits, in two ways.  With `RevocationReasonCode`
the decimal text of 9223372036854775808 (2^63), `ParseRevokedCertificate`
returns the empty record and an error.  With `RevocationDate` the decimal text
of 9223372036854775807 (2^63 - 1), it returns a record whose date is not the
instant that many seconds after the Unix epoch: the second count of
`time.Unix` has wrapped around to a time before the epoch. -/
theorem c1_counterexample_reason_beyond_int64 :
    2 ≤ Count "acct:variable:pki/certificates/1234".toList ':' ∧
    equalsIgnoringCase "true".toList "true".toList = true ∧
    decimalValue "9223372036854775808".toList = some 9223372036854775808 ∧
    decimalValue "1700000000".toList = some 1700000000 ∧
    ParseRevokedCertificate sprintNone
        (mkResource "acct:variable:pki/certificates/1234"
          [("Revoked", "true"), ("RevocationReasonCode", "9223372036854775808"),
           ("RevocationDate", "1700000000")]) =
      Except.ok (RevokedCertificate.empty,
        some ⟨"Failed to cast RevocationReasonCode \x279223372036854775808\x27 into an int".toList⟩) ∧
    decimalValue "1".toList = some 1 ∧
    decimalValue "9223372036854775807".toList = some 9223372036854775807 ∧
    ParseRevokedCertificate sprintNone
        (mkResource "acct:variable:pki/certificates/1234"
          [("Revoked", "true"), ("RevocationReasonCode", "1"),
           ("RevocationDate", "9223372036854775807")]) =
      Except.ok
        ({ SerialNumber := "1234".toList
           ReasonCode := 1
           RevocationDate :=
             { ext := -9223371974719179009, nsec := 0, loc := Location.Local } }, none) ∧
    ({ ext := -9223371974719179009, nsec := 0, loc := Location.Local } : Time).instantNanos <
      0 ∧
    ({ ext := -9223371974719179009, nsec := 0, loc := Location.Local } : Time).instantNanos ≠
      9223372036854775807 * 1000000000 := by
  decide

/-- C2: on a resource whose id has at least two `:` and whose first `Revoked`
value does not equal `true` ignoring case (the empty text included),
`ParseRevokedCertificate` returns the empty record and no error, whatever the
other annotations are. -/
theorem c2_not_true_is_not_revoked (sprintV : GoMap → GoString) (resource : GoMap)
    (fullID : GoString) (anns : List (GoString × GoString)) (revoked : GoString)
    (hid : (resource.index "id".toList).assertString = Except.ok fullID)
    (hcolons : 2 ≤ Count fullID ':')
    (hanns : annotationsOf resource = some anns)
    (hrevoked : firstValue "Revoked".toList anns = some revoked)
    (hnot : equalsIgnoringCase revoked "true".toList = false) :
    ParseRevokedCertificate sprintV resource = Except.ok (RevokedCertificate.empty, none) := by
  have hlow : ¬ ToLower revoked = "true".toList := by
    rw [ToLower_eq_true_iff, hnot]
    simp
  rw [ParseRevokedCertificate_decoded sprintV resource fullID anns hid hcolons hanns]
  simp only [hrevoked, hlow, ne_eq, not_false_eq_true, if_true]

/-- C2 at a resource whose `Revoked` value is empty and whose reason code is
malformed and revocation date missing. -/
theorem c2_not_true_is_not_revoked_witness :
    ((mkResource "acct:variable:pki/certificates/1234"
        [("RevocationReasonCode", "x"), ("Revoked", "")]).index "id".toList).assertString =
      Except.ok "acct:variable:pki/certificates/1234".toList ∧
    2 ≤ Count "acct:variable:pki/certificates/1234".toList ':' ∧
    firstValue "Revoked".toList
      [("RevocationReasonCode".toList, "x".toList), ("Revoked".toList, "".toList)] =
      some "".toList ∧
    equalsIgnoringCase "".toList "true".toList = false ∧
    ParseRevokedCertificate sprintNone
        (mkResource "acct:variable:pki/certificates/1234"
          [("RevocationReasonCode", "x"), ("Revoked", "")]) =
      Except.ok (RevokedCertificate.empty, none) :=
  ⟨by decide, by decide, by decide, by decide,
    c2_not_true_is_not_revoked sprintNone
      (mkResource "acct:variable:pki/certificates/1234"
        [("RevocationReasonCode", "x"), ("Revoked", "")])
      "acct:variable:pki/certificates/1234".toList
      [("RevocationReasonCode".toList, "x".toList), ("Revoked".toList, "".toList)]
      "".toList (by decide) (by decide) (by decide) (by decide) (by decide)⟩

/-- C3 (as amended): on a resource whose id has at least two `:` and that
carries no `Revoked` annotation, `ParseRevokedCertificate` returns the empty
record together with an error, whose message names the serial number and the
missing annotation. -/
theorem c3_missing_revoked_is_an_error (sprintV : GoMap → GoString) (resource : GoMap)
    (fullID : GoString) (anns : List (GoString × GoString))
    (hid : (resource.index "id".toList).assertString = Except.ok fullID)
    (hcolons : 2 ≤ Count fullID ':')
    (hanns : annotationsOf resource = some anns)
    (hmissing : ∀ a ∈ anns, a.1 ≠ "Revoked".toList) :
    ParseRevokedCertificate sprintV resource =
      Except.ok (RevokedCertificate.empty,
        some ⟨"Failed to retrieve Revoked from certificate \x27".toList ++
          afterLast '/' (idComponent fullID) ++ "\x27. ".toList ++
          "Failed to find annotation \x27Revoked\x27 on resource \x27".toList ++
          sprintV resource ++ "\x27".toList⟩) := by
  have hnone : firstValue "Revoked".toList anns = none :=
    (firstValue_eq_none_iff _ anns).mpr hmissing
  rw [ParseRevokedCertificate_decoded sprintV resource fullID anns hid hcolons hanns]
  simp only [hnone, notFoundError]
  simp

/-- C3 (as amended) at a resource that carries only an `ExpirationDate`. -/
theorem c3_missing_revoked_is_an_error_witness :
    ((mkResource "acct:variable:pki/certificates/77" [("ExpirationDate", "100")]).index
        "id".toList).assertString = Except.ok "acct:variable:pki/certificates/77".toList ∧
    2 ≤ Count "acct:variable:pki/certificates/77".toList ':' ∧
    (∀ a ∈ [("ExpirationDate".toList, "100".toList)], a.1 ≠ "Revoked".toList) ∧
    ParseRevokedCertificate sprintNone
        (mkResource "acct:variable:pki/certificates/77" [("ExpirationDate", "100")]) =
      Except.ok (RevokedCertificate.empty,
        some ⟨("Failed to retrieve Revoked from certificate \x2777\x27. " ++
          "Failed to find annotation \x27Revoked\x27 on resource \x27map[]\x27").toList⟩) :=
  ⟨by decide, by decide, by decide,
    c3_missing_revoked_is_an_error sprintNone
      (mkResource "acct:variable:pki/certificates/77" [("ExpirationDate", "100")])
      "acct:variable:pki/certificates/77".toList
      [("ExpirationDate".toList, "100".toList)] (by decide) (by decide) (by decide)
      (by decide)⟩

/-- C3 as stated fails: a resource without any annotation does not come back
as the empty record with no error; an error is returned. -/
theorem c3_counterexample_no_annotations :
    annotationsOf (mkResource "acct:variable:pki/certificates/1234" []) = some [] ∧
    ParseRevokedCertificate sprintNone (mkResource "acct:variable:pki/certificates/1234" []) ≠
      Except.ok (RevokedCertificate.empty, none) ∧
    ParseRevokedCertificate sprintNone (mkResource "acct:variable:pki/certificates/1234" []) =
      Except.ok (RevokedCertificate.empty,
        some ⟨("Failed to retrieve Revoked from certificate \x271234\x27. " ++
          "Failed to find annotation \x27Revoked\x27 on resource \x27map[]\x27").toList⟩) := by
  decide

theorem IsCertificateExpired_decoded (sprintV : GoMap → GoString) (localRules : ZoneRules)
    (resource : GoMap) (anns : List (GoString × GoString)) (currentTime : Time)
    (dayBuffer : Int) (hanns : annotationsOf resource = some anns) :
    IsCertificateExpired sprintV localRules resource currentTime dayBuffer =
      Except.ok
        (match firstValue "ExpirationDate".toList anns with
        | none => false
        | some value =>
          match ParseInt value with
          | Except.error _ => false
          | Except.ok sec =>
            currentTime.After ((Time.ofUnix sec).AddDate localRules dayBuffer)) := by
  unfold IsCertificateExpired
  simp only [GetAnnotationValue_decoded sprintV resource _ anns hanns, bind, Except.bind, pure,
    Except.pure, StringToTime]
  cases firstValue "ExpirationDate".toList anns with
  | none => rfl
  | some value =>
    dsimp only
    cases ParseInt value with
    | error e => rfl
    | ok sec => rfl

/-- C5: on a resource with a well-typed annotation list, `IsCertificateExpired`
returns false, at every time and buffer, when there is no `ExpirationDate`
annotation and when the first `ExpirationDate` value is not the decimal text of
a 64-bit integer. -/
theorem c5_unreadable_expiration_not_expired (sprintV : GoMap → GoString)
    (localRules : ZoneRules) (resource : GoMap)
    (anns : List (GoString × GoString)) (T : Time) (D : Int)
    (hanns : annotationsOf resource = some anns)
    (hbad : (∀ a ∈ anns, a.1 ≠ "ExpirationDate".toList) ∨
      ∃ value, firstValue "ExpirationDate".toList anns = some value ∧
        ∀ e, decimalValue value = some e → ¬ (minInt64 ≤ e ∧ e ≤ maxInt64)) :
    IsCertificateExpired sprintV localRules resource T D = Except.ok false := by
  rw [IsCertificateExpired_decoded sprintV localRules resource anns T D hanns]
  rcases hbad with hnone | ⟨value, hvalue, hno⟩
  · rw [(firstValue_eq_none_iff _ anns).mpr hnone]
  · simp only [hvalue, ParseInt]
    cases hd : decimalValue value with
    | none => rfl
    | some e =>
      have := hno e hd
      simp only [this, if_false]

/-- C5 at four resources: no `ExpirationDate`, an empty one, a non-numeric one
and one beyond 64 bits, each read long after any date involved. -/
theorem c5_unreadable_expiration_not_expired_witness :
    IsCertificateExpired sprintNone newYork2024 (mkResource "a:variable:c/1" [("Revoked", "true")])
      (Time.ofUnix 4000000000) (-3) = Except.ok false ∧
    IsCertificateExpired sprintNone newYork2024 (mkResource "a:variable:c/1" [("ExpirationDate", "")])
      (Time.ofUnix 4000000000) 0 = Except.ok false ∧
    IsCertificateExpired sprintNone newYork2024 (mkResource "a:variable:c/1" [("ExpirationDate", "12x")])
      (Time.ofUnix 4000000000) 0 = Except.ok false ∧
    (decimalValue "-9223372036854775809".toList = some (-9223372036854775809) ∧
      IsCertificateExpired sprintNone newYork2024
        (mkResource "a:variable:c/1" [("ExpirationDate", "-9223372036854775809")])
        (Time.ofUnix 4000000000) 0 = Except.ok false) :=
  ⟨c5_unreadable_expiration_not_expired sprintNone newYork2024
      (mkResource "a:variable:c/1" [("Revoked", "true")])
      [("Revoked".toList, "true".toList)] (Time.ofUnix 4000000000) (-3) (by decide)
      (Or.inl (by decide)),
    c5_unreadable_expiration_not_expired sprintNone newYork2024
      (mkResource "a:variable:c/1" [("ExpirationDate", "")])
      [("ExpirationDate".toList, "".toList)] (Time.ofUnix 4000000000) 0 (by decide)
      (Or.inr ⟨"".toList, by decide, fun e h => by
        have hn : decimalValue "".toList = none := by decide
        rw [hn] at h
        cases h⟩),
    c5_unreadable_expiration_not_expired sprintNone newYork2024
      (mkResource "a:variable:c/1" [("ExpirationDate", "12x")])
      [("ExpirationDate".toList, "12x".toList)] (Time.ofUnix 4000000000) 0 (by decide)
      (Or.inr ⟨"12x".toList, by decide, fun e h => by
        have hn : decimalValue "12x".toList = none := by decide
        rw [hn] at h
        cases h⟩),
    by decide,
    c5_unreadable_expiration_not_expired sprintNone newYork2024
      (mkResource "a:variable:c/1" [("ExpirationDate", "-9223372036854775809")])
      [("ExpirationDate".toList, "-9223372036854775809".toList)] (Time.ofUnix 4000000000) 0
      (by decide)
      (Or.inr ⟨"-9223372036854775809".toList, by decide, fun e h => by
        have hn : decimalValue "-9223372036854775809".toList = some (-9223372036854775809) := by
          decide
        rw [hn] at h
        cases h
        decide⟩)⟩

theorem GetFullResourceID_eq (account kind id : GoString) :
    GetFullResourceID account kind id = account ++ ':' :: (kind ++ ':' :: id) := by
  simp [GetFullResourceID, Join]

/-- C6: for all texts `account`, `kind` and `id` with no `:` inside `account`
and `kind` (`id` is arbitrary), splitting the formatted identifier gives the
three components back. -/
theorem c6_split_of_full_resource_id (account kind id : GoString)
    (haccount : ':' ∉ account) (hkind : ':' ∉ kind) :
    SplitConjurID (GetFullResourceID account kind id) = Except.ok (account, kind, id) := by
  rw [GetFullResourceID_eq]
  simp [SplitConjurID, SplitN, Cut_append ':' account _ haccount, Cut_append ':' kind _ hkind,
    sliceIndex, bind, Except.bind, pure, Except.pure]

/-- C6 at an id that itself contains `:` and `/`. -/
theorem c6_split_of_full_resource_id_witness :
    ':' ∉ "acct".toList ∧ ':' ∉ "variable".toList ∧
    GetFullResourceID "acct".toList "variable".toList "pki/ca:root/12".toList =
      "acct:variable:pki/ca:root/12".toList ∧
    SplitConjurID
        (GetFullResourceID "acct".toList "variable".toList "pki/ca:root/12".toList) =
      Except.ok ("acct".toList, "variable".toList, "pki/ca:root/12".toList) :=
  ⟨by decide, by decide, by decide,
    c6_split_of_full_resource_id "acct".toList "variable".toList "pki/ca:root/12".toList
      (by decide) (by decide)⟩

theorem Count_zero_not_mem (sep : Char) (s : GoString) (h : Count s sep = 0) : sep ∉ s :=
  fun hm => by
    have := (Count_pos_iff sep s).mpr hm
    omega

/-- C7 (as amended): `SplitConjurID` has no error result; on every text with
fewer than two `:` it returns no components: the index expression one past the
pieces found aborts with an index-out-of-range panic. -/
theorem c7_split_of_short_id_panics (fullID : GoString) (h : Count fullID ':' < 2) :
    SplitConjurID fullID =
      Except.error (GoPanic.indexOutOfRange (Count fullID ':' + 1) (Count fullID ':' + 1)) := by
  by_cases h0 : Count fullID ':' = 0
  · have hm := Count_zero_not_mem ':' fullID h0
    simp [SplitConjurID, SplitN, Cut_eq_none ':' fullID hm, sliceIndex, bind, Except.bind, h0]
  · have h1 : Count fullID ':' = 1 := by omega
    have hm : ':' ∈ fullID := (Count_pos_iff ':' fullID).mp (by omega)
    have hm2 : ':' ∉ afterFirst ':' fullID :=
      Count_zero_not_mem ':' _ (by rw [Count_afterFirst]; omega)
    simp [SplitConjurID, SplitN, Cut_of_mem ':' fullID hm, Cut_eq_none ':' _ hm2, sliceIndex,
      bind, Except.bind, h1]

/-- C7 (as amended) at texts with no `:` and with one `:`. -/
theorem c7_split_of_short_id_panics_witness :
    Count "account".toList ':' < 2 ∧
    SplitConjurID "account".toList = Except.error (GoPanic.indexOutOfRange 1 1) ∧
    Count "account:variable".toList ':' < 2 ∧
    SplitConjurID "account:variable".toList = Except.error (GoPanic.indexOutOfRange 2 2) :=
  ⟨by decide, c7_split_of_short_id_panics "account".toList (by decide),
    by decide, c7_split_of_short_id_panics "account:variable".toList (by decide)⟩

/-- C7 as stated fails: on `account:variable`, which has one `:`, no error
value reaches the caller; the call aborts with a panic. -/
theorem c7_counterexample_one_colon :
    Count "account:variable".toList ':' = 1 ∧
    (∀ r, SplitConjurID "account:variable".toList ≠ Except.ok r) ∧
    SplitConjurID "account:variable".toList = Except.error (GoPanic.indexOutOfRange 2 2) := by
  refine ⟨by decide, ?_, by decide⟩
  intro r h
  have h2 : SplitConjurID "account:variable".toList =
      Except.error (GoPanic.indexOutOfRange 2 2) := by decide
  rw [h2] at h
  cases h

/-- C8: on a resource with a well-typed annotation list in which at least one
annotation is named exactly `key`, `GetAnnotationValue` returns, without error,
the value of the first such annotation in list order: the list splits into the
annotations before it, none of them named `key`, that annotation, and the rest,
which is ignored. -/
theorem c8_first_match_wins (sprintV : GoMap → GoString) (resource : GoMap)
    (anns : List (GoString × GoString)) (key : GoString)
    (hanns : annotationsOf resource = some anns)
    (hpresent : ∃ a ∈ anns, a.1 = key) :
    ∃ before value after,
      anns = before ++ (key, value) :: after ∧
      (∀ a ∈ before, a.1 ≠ key) ∧
      GetAnnotationValue sprintV resource key = Except.ok (value, none) := by
  cases hfirst : firstValue key anns with
  | none =>
    obtain ⟨a, ha, hkey⟩ := hpresent
    exact absurd hkey ((firstValue_eq_none_iff key anns).mp hfirst a ha)
  | some value =>
    obtain ⟨before, after, hsplit, hbefore⟩ := (firstValue_eq_some_iff key value anns).mp hfirst
    refine ⟨before, value, after, hsplit, hbefore, ?_⟩
    rw [GetAnnotationValue_decoded sprintV resource key anns hanns, hfirst]

/-- C8, the example of the claim: of `Revoked` = `false` followed by `Revoked` =
`true` the first is read; a name that differs in case is not a match. -/
theorem c8_first_match_wins_witness :
    (∃ a ∈ [("revoked".toList, "yes".toList), ("Revoked".toList, "false".toList),
        ("Revoked".toList, "true".toList)], a.1 = "Revoked".toList) ∧
    (∃ before value after,
      [("revoked".toList, "yes".toList), ("Revoked".toList, "false".toList),
        ("Revoked".toList, "true".toList)] = before ++ ("Revoked".toList, value) :: after ∧
      (∀ a ∈ before, a.1 ≠ "Revoked".toList) ∧
      GetAnnotationValue sprintNone
        (mkResource "a:variable:c/1"
          [("revoked", "yes"), ("Revoked", "false"), ("Revoked", "true")])
        "Revoked".toList = Except.ok (value, none)) ∧
    GetAnnotationValue sprintNone
      (mkResource "a:variable:c/1" [("revoked", "yes"), ("Revoked", "false"), ("Revoked", "true")])
      "Revoked".toList = Except.ok ("false".toList, none) :=
  ⟨by decide,
    c8_first_match_wins sprintNone
      (mkResource "a:variable:c/1" [("revoked", "yes"), ("Revoked", "false"), ("Revoked", "true")])
      [("revoked".toList, "yes".toList), ("Revoked".toList, "false".toList),
        ("Revoked".toList, "true".toList)]
      "Revoked".toList (by decide) (by decide),
    by decide⟩

/-- C9: on a resource with a well-typed annotation list `GetAnnotationValue`
returns normally, and it returns an error exactly when no annotation is named
`key`; when the first annotation named `key` has the empty text as value, the
result is the empty text and no error. -/
theorem c9_error_iff_absent (sprintV : GoMap → GoString) (resource : GoMap)
    (anns : List (GoString × GoString)) (key : GoString)
    (hanns : annotationsOf resource = some anns) :
    ∃ value err,
      GetAnnotationValue sprintV resource key = Except.ok (value, err) ∧
      (err ≠ none ↔ ∀ a ∈ anns, a.1 ≠ key) ∧
      (firstValue key anns = some [] → value = [] ∧ err = none) := by
  rw [GetAnnotationValue_decoded sprintV resource key anns hanns]
  cases hfirst : firstValue key anns with
  | none =>
    refine ⟨[], some (notFoundError sprintV resource key), rfl, ?_, ?_⟩
    · exact ⟨fun _ => (firstValue_eq_none_iff key anns).mp hfirst, fun _ h => by cases h⟩
    · intro h
      cases h
  | some v =>
    refine ⟨v, none, rfl, ?_, ?_⟩
    · have hne : ¬ ∀ a ∈ anns, a.1 ≠ key := by
        intro hall
        rw [(firstValue_eq_none_iff key anns).mpr hall] at hfirst
        cases hfirst
      exact ⟨fun h => absurd rfl h, fun h => absurd h hne⟩
    · intro h
      cases h
      exact ⟨rfl, rfl⟩

/-- C9 at a resource whose `Revoked` annotation is empty: reading `Revoked`
succeeds with the empty text, reading the absent `ExpirationDate` is an
error. -/
theorem c9_error_iff_absent_witness :
    annotationsOf (mkResource "a:variable:c/1" [("Revoked", "")]) =
      some [("Revoked".toList, "".toList)] ∧
    (∃ value err,
      GetAnnotationValue sprintNone (mkResource "a:variable:c/1" [("Revoked", "")])
        "Revoked".toList = Except.ok (value, err) ∧
      (err ≠ none ↔ ∀ a ∈ [("Revoked".toList, "".toList)], a.1 ≠ "Revoked".toList) ∧
      (firstValue "Revoked".toList [("Revoked".toList, "".toList)] = some [] →
        value = [] ∧ err = none)) ∧
    GetAnnotationValue sprintNone (mkResource "a:variable:c/1" [("Revoked", "")])
      "Revoked".toList = Except.ok ([], none) ∧
    GetAnnotationValue sprintNone (mkResource "a:variable:c/1" [("Revoked", "")])
      "ExpirationDate".toList =
      Except.ok ([], some ⟨("Failed to find annotation \x27ExpirationDate\x27 " ++
        "on resource \x27map[]\x27").toList⟩) :=
  ⟨by decide,
    c9_error_iff_absent sprintNone (mkResource "a:variable:c/1" [("Revoked", "")])
      [("Revoked".toList, "".toList)] "Revoked".toList (by decide),
    by decide, by decide⟩

theorem replaceFrom_skip_all (old new : GoString) (s : GoString) :
    ∀ k, s.length ≤ k → replaceFrom old new k s = [] := by
  induction s with
  | nil => intro k _; cases k <;> rfl
  | cons c cs ih =>
    intro k hk
    cases k with
    | zero => simp at hk
    | succ k =>
      simp only [List.length_cons, Nat.add_le_add_iff_right] at hk
      simp [replaceFrom, ih k hk]

theorem isPrefixOf_self (l : GoString) : l.isPrefixOf l = true := by
  induction l with
  | nil => rfl
  | cons a l ih => simp [List.isPrefixOf, ih]

theorem ReplaceAll_self (old new : GoString) (h : old ≠ []) : ReplaceAll old old new = new := by
  cases old with
  | nil => exact absurd rfl h
  | cons c cs =>
    have hp : (c :: cs).isPrefixOf (c :: cs) = true := isPrefixOf_self (c :: cs)
    simp only [ReplaceAll, if_neg h, replaceFrom, hp, if_true, List.length_cons,
      Nat.add_sub_cancel]
    rw [replaceFrom_skip_all _ _ cs cs.length (Nat.le_refl _)]
    simp

theorem replaceFrom_no_start (c0 : Char) (rest new : GoString) (s : GoString) (h : c0 ∉ s) :
    replaceFrom (c0 :: rest) new 0 s = s := by
  induction s with
  | nil => rfl
  | cons c cs ih =>
    simp only [List.mem_cons, not_or] at h
    have hc : (c0 == c) = false := by simpa using h.1
    simp [replaceFrom, List.isPrefixOf, hc, ih h.2]

theorem placeholder_isPrefixOf (a b : GoString) (ha : '>' ∉ a)
    (h : (b ++ ['>']).isPrefixOf (a ++ ['>']) = true) : a = b := by
  induction b generalizing a with
  | nil =>
    cases a with
    | nil => rfl
    | cons x xs =>
      simp only [List.mem_cons, not_or] at ha
      simp [List.isPrefixOf] at h
      exact absurd h ha.1
  | cons y ys ih =>
    cases a with
    | nil =>
      simp [List.isPrefixOf] at h
    | cons x xs =>
      simp only [List.mem_cons, not_or] at ha
      simp only [List.cons_append, List.isPrefixOf, Bool.and_eq_true, beq_iff_eq] at h
      rw [h.1, ih xs ha.2 h.2]

theorem ReplaceAll_other_placeholder (a b new : GoString) (hab : a ≠ b)
    (ha : '<' ∉ a ∧ '>' ∉ a) :
    ReplaceAll ('<' :: (a ++ ['>'])) ('<' :: (b ++ ['>'])) new = '<' :: (a ++ ['>']) := by
  have hp : (b ++ ['>']).isPrefixOf (a ++ ['>']) = false := by
    cases hq : (b ++ ['>']).isPrefixOf (a ++ ['>']) with
    | false => rfl
    | true => exact absurd (placeholder_isPrefixOf a b ha.2 hq) hab
  have hno : '<' ∉ a ++ ['>'] := by
    simp [ha.1]
  simp only [ReplaceAll, replaceFrom, List.isPrefixOf, hp, beq_self_eq_true, Bool.and_false,
    Bool.true_and, if_false]
  rw [replaceFrom_no_start '<' _ new _ hno]
  simp

/-- C10 (as amended): `ReplaceTemplate` and `ReplaceCertificate` substitute the
fields one after the other in declaration order, each over the whole text
produced so far.  So for distinct field names `A` and `B` (`A` without `<` or
`>`), the template `<A>` with `A` = `<B>` and `B` = `x` renders to `<B>` when
`B` is declared before `A`, and to `x` when `A` is declared before `B`. -/
theorem c10_substituted_value_rescanned_by_later_fields (A B x : GoString)
    (hAB : A ≠ B) (hA : '<' ∉ A ∧ '>' ∉ A) :
    (∀ (field : GoString × GoString) (rest : Record) (text : GoString),
      ReplaceTemplate (field :: rest) text =
        ReplaceTemplate rest (ReplaceAll text ("<".toList ++ field.1 ++ ">".toList) field.2) ∧
      ReplaceCertificate (field :: rest) text =
        ReplaceCertificate rest
          (ReplaceAll text ("<".toList ++ field.1 ++ ">".toList) field.2)) ∧
    ReplaceTemplate [(B, x), (A, "<".toList ++ B ++ ">".toList)]
      ("<".toList ++ A ++ ">".toList) = "<".toList ++ B ++ ">".toList ∧
    ReplaceTemplate [(A, "<".toList ++ B ++ ">".toList), (B, x)]
      ("<".toList ++ A ++ ">".toList) = x ∧
    ReplaceCertificate [(B, x), (A, "<".toList ++ B ++ ">".toList)]
      ("<".toList ++ A ++ ">".toList) = "<".toList ++ B ++ ">".toList ∧
    ReplaceCertificate [(A, "<".toList ++ B ++ ">".toList), (B, x)]
      ("<".toList ++ A ++ ">".toList) = x := by
  have h1 : ReplaceAll ('<' :: (A ++ ['>'])) ('<' :: (B ++ ['>'])) x = '<' :: (A ++ ['>']) :=
    ReplaceAll_other_placeholder A B x hAB hA
  have h2 : ReplaceAll ('<' :: (A ++ ['>'])) ('<' :: (A ++ ['>'])) ('<' :: (B ++ ['>'])) =
      '<' :: (B ++ ['>']) := ReplaceAll_self _ _ (by simp)
  have h3 : ReplaceAll ('<' :: (B ++ ['>'])) ('<' :: (B ++ ['>'])) x = x :=
    ReplaceAll_self _ _ (by simp)
  refine ⟨fun field rest text => ⟨rfl, rfl⟩, ?_, ?_, ?_, ?_⟩ <;>
    simp [ReplaceTemplate, ReplaceCertificate, replaceField, h1, h2, h3]

/-- C10 (as amended) at the field names `KeyAlgo` and `KeyBits`. -/
theorem c10_substituted_value_rescanned_by_later_fields_witness :
    "KeyAlgo".toList ≠ "KeyBits".toList ∧
    ('<' ∉ "KeyAlgo".toList ∧ '>' ∉ "KeyAlgo".toList) ∧
    ReplaceTemplate [("KeyBits".toList, "x".toList), ("KeyAlgo".toList, "<KeyBits>".toList)]
      "<KeyAlgo>".toList = "<KeyBits>".toList ∧
    ReplaceTemplate [("KeyAlgo".toList, "<KeyBits>".toList), ("KeyBits".toList, "x".toList)]
      "<KeyAlgo>".toList = "x".toList :=
  ⟨by decide, by decide,
    (c10_substituted_value_rescanned_by_later_fields "KeyAlgo".toList "KeyBits".toList
      "x".toList (by decide) (by decide)).2.1,
    (c10_substituted_value_rescanned_by_later_fields "KeyAlgo".toList "KeyBits".toList
      "x".toList (by decide) (by decide)).2.2.1⟩

/-- C10 as stated fails: with the field `A` declared before the field `B`, the
template `<A>` with `A` = `<B>` and `B` = `x` renders to `x`; the `<B>` brought
in by the value of `A` is replaced in turn. -/
theorem c10_counterexample_earlier_field_value :
    "A".toList ≠ "B".toList ∧
    ReplaceTemplate [("A".toList, "<B>".toList), ("B".toList, "x".toList)] "<A>".toList =
      "x".toList ∧
    ReplaceCertificate [("A".toList, "<B>".toList), ("B".toList, "x".toList)] "<A>".toList =
      "x".toList ∧
    "x".toList ≠ "<B>".toList := by
  decide

theorem replaceFrom_text (rest new s t : GoString) (h : '<' ∉ s) :
    replaceFrom ('<' :: rest) new 0 (s ++ t) = s ++ replaceFrom ('<' :: rest) new 0 t := by
  induction s with
  | nil => rfl
  | cons c cs ih =>
    simp only [List.mem_cons, not_or] at h
    have hc : ('<' == c) = false := by simpa using h.1
    simp [replaceFrom, List.isPrefixOf, hc, ih h.2]

theorem replaceFrom_skip (old new s t : GoString) :
    replaceFrom old new s.length (s ++ t) = replaceFrom old new 0 t := by
  induction s with
  | nil => rfl
  | cons c cs ih => simpa [replaceFrom] using ih

theorem isPrefixOf_append (l t : GoString) : l.isPrefixOf (l ++ t) = true := by
  induction l with
  | nil => simp [List.isPrefixOf]
  | cons a l ih => simp [List.isPrefixOf, ih]

theorem replaceFrom_token_same (n new t : GoString) :
    replaceFrom ('<' :: (n ++ ['>'])) new 0 ('<' :: (n ++ '>' :: t)) =
      new ++ replaceFrom ('<' :: (n ++ ['>'])) new 0 t := by
  have hp : ('<' :: (n ++ ['>'])).isPrefixOf ('<' :: (n ++ '>' :: t)) = true := by
    have := isPrefixOf_append ('<' :: (n ++ ['>'])) t
    simp only [List.cons_append, List.append_assoc, List.singleton_append] at this
    exact this
  have hskip := replaceFrom_skip ('<' :: (n ++ ['>'])) new (n ++ ['>']) t
  simp only [replaceFrom, hp, if_true, List.length_cons, Nat.add_sub_cancel]
  simp only [List.append_assoc, List.singleton_append] at hskip
  rw [hskip]

theorem token_isPrefixOf (a b t : GoString) (ha : '>' ∉ a) (hb : '>' ∉ b)
    (h : (b ++ ['>']).isPrefixOf (a ++ '>' :: t) = true) : a = b := by
  induction b generalizing a with
  | nil =>
    cases a with
    | nil => rfl
    | cons x xs =>
      simp only [List.mem_cons, not_or] at ha
      simp [List.isPrefixOf] at h
      exact absurd h ha.1
  | cons y ys ih =>
    simp only [List.mem_cons, not_or] at hb
    cases a with
    | nil =>
      simp [List.isPrefixOf] at h
      exact absurd h.1.symm hb.1
    | cons x xs =>
      simp only [List.mem_cons, not_or] at ha
      simp only [List.cons_append, List.isPrefixOf, Bool.and_eq_true, beq_iff_eq] at h
      rw [h.1, ih xs ha.2 hb.2 h.2]

theorem replaceFrom_token_other (n m new t : GoString) (hn : '>' ∉ n)
    (hm : '<' ∉ m ∧ '>' ∉ m) (hne : m ≠ n) :
    replaceFrom ('<' :: (n ++ ['>'])) new 0 ('<' :: (m ++ '>' :: t)) =
      '<' :: (m ++ '>' :: replaceFrom ('<' :: (n ++ ['>'])) new 0 t) := by
  have hp : (n ++ ['>']).isPrefixOf (m ++ '>' :: t) = false := by
    cases hq : (n ++ ['>']).isPrefixOf (m ++ '>' :: t) with
    | false => rfl
    | true => exact absurd (token_isPrefixOf m n t hm.2 hn hq) hne
  have hno : '<' ∉ m ++ ['>'] := by simp [hm.1]
  have htext := replaceFrom_text (n ++ ['>']) new (m ++ ['>']) t hno
  simp only [List.append_assoc, List.singleton_append] at htext
  simp only [replaceFrom, List.isPrefixOf, hp, beq_self_eq_true, Bool.and_false, Bool.true_and,
    htext]
  simp

/-- One pass of the loop over a text made of plain pieces: the tokens named
after the field become its value, every other piece stays. -/
theorem replaceField_renderPieces (n v : GoString) (hn : '>' ∉ n) (pieces : List Piece)
    (hplain : ∀ p ∈ pieces, p.plain = true) :
    replaceField (renderPieces pieces) (n, v) =
      renderPieces (pieces.map (Piece.fill [(n, v)])) := by
  have hold : ("<".toList ++ n ++ ">".toList : GoString) = '<' :: (n ++ ['>']) := by simp
  simp only [replaceField, hold, ReplaceAll, List.cons_ne_nil, if_false]
  induction pieces with
  | nil => rfl
  | cons p ps ih =>
    have hps : ∀ q ∈ ps, q.plain = true := fun q hq => hplain q (List.mem_cons_of_mem _ hq)
    have hp := hplain p (List.mem_cons_self _ _)
    cases p with
    | text s =>
      simp only [Piece.plain, decide_eq_true_eq] at hp
      simp only [renderPieces, Piece.render, List.map_cons, Piece.fill]
      rw [replaceFrom_text _ _ _ _ hp.1, ih hps]
    | token m =>
      simp only [Piece.plain, decide_eq_true_eq] at hp
      have hm : ("<".toList ++ m ++ ">".toList : GoString) ++ renderPieces ps =
          '<' :: (m ++ '>' :: renderPieces ps) := by simp
      by_cases hmn : m = n
      · subst hmn
        simp only [renderPieces, Piece.render, List.map_cons, Piece.fill, firstValue, if_true, hm]
        rw [replaceFrom_token_same, ih hps]
      · have hnm : ¬ n = m := fun e => hmn e.symm
        simp only [renderPieces, Piece.render, List.map_cons, Piece.fill, firstValue, hnm,
          if_false, hm]
        rw [replaceFrom_token_other n m v _ hn hp hmn, ih hps]
        simp

theorem Piece.fill_nil (p : Piece) : Piece.fill [] p = p := by
  cases p <;> rfl

theorem map_fill_nil (pieces : List Piece) : pieces.map (Piece.fill []) = pieces := by
  induction pieces with
  | nil => rfl
  | cons p ps ih => simp [Piece.fill_nil, ih]

theorem Piece.fill_cons (n v : GoString) (rest : Record) (p : Piece) :
    Piece.fill rest (Piece.fill [(n, v)] p) = Piece.fill ((n, v) :: rest) p := by
  cases p with
  | text s => rfl
  | token m =>
    by_cases h : n = m
    · simp [Piece.fill, firstValue, h]
    · simp only [Piece.fill, firstValue, h, if_false]

theorem Piece.fill_plain (n v : GoString) (hv : '<' ∉ v ∧ '>' ∉ v) (p : Piece)
    (hp : p.plain = true) : (Piece.fill [(n, v)] p).plain = true := by
  cases p with
  | text s => exact hp
  | token m =>
    by_cases h : n = m
    · simp [Piece.fill, firstValue, h, Piece.plain, hv.1, hv.2]
    · simp only [Piece.fill, firstValue, h, if_false]
      exact hp

theorem foldl_replaceField_renderPieces (record : Record)
    (hnames : ∀ f ∈ record, '>' ∉ f.1)
    (hvalues : ∀ f ∈ record, '<' ∉ f.2 ∧ '>' ∉ f.2) :
    ∀ pieces : List Piece, (∀ p ∈ pieces, p.plain = true) →
      record.foldl replaceField (renderPieces pieces) =
        renderPieces (pieces.map (Piece.fill record)) := by
  induction record with
  | nil =>
    intro pieces _
    rw [map_fill_nil]
    rfl
  | cons f rest ih =>
    intro pieces hplain
    obtain ⟨n, v⟩ := f
    have hn : '>' ∉ n := hnames (n, v) (List.mem_cons_self _ _)
    have hv : '<' ∉ v ∧ '>' ∉ v := hvalues (n, v) (List.mem_cons_self _ _)
    have hplain2 : ∀ p ∈ pieces.map (Piece.fill [(n, v)]), p.plain = true := by
      intro p hp
      obtain ⟨q, hq, rfl⟩ := List.mem_map.mp hp
      exact Piece.fill_plain n v hv q (hplain q hq)
    rw [List.foldl_cons, replaceField_renderPieces n v hn pieces hplain,
      ih (fun f hf => hnames f (List.mem_cons_of_mem _ hf))
        (fun f hf => hvalues f (List.mem_cons_of_mem _ hf)) _ hplain2,
      List.map_map]
    congr 1
    apply List.map_congr_left
    intro p _
    exact Piece.fill_cons n v rest p

/-- C11: for every record (its field names free of `>`, as Go identifiers are)
whose field values hold no `<` or `>`, and every template text made of pieces in
which `<` and `>` occur only as the delimiters of tokens, `ReplaceTemplate`
(and `ReplaceCertificate`) returns the text in which every token named after a
field is replaced by the text of that field, and every other piece is
untouched. -/
theorem c11_render_fills_field_tokens (record : Record) (pieces : List Piece)
    (hnames : ∀ f ∈ record, '>' ∉ f.1)
    (hvalues : ∀ f ∈ record, '<' ∉ f.2 ∧ '>' ∉ f.2)
    (hplain : ∀ p ∈ pieces, p.plain = true) :
    ReplaceTemplate record (renderPieces pieces) =
        renderPieces (pieces.map (Piece.fill record)) ∧
      ReplaceCertificate record (renderPieces pieces) =
        renderPieces (pieces.map (Piece.fill record)) :=
  ⟨foldl_replaceField_renderPieces record hnames hvalues pieces hplain,
    foldl_replaceField_renderPieces record hnames hvalues pieces hplain⟩

/-- C11, the example of the claim: `<CommonName> issued to <CommonName>` with
`CommonName` = `example.com`, in a record that has other fields too. -/
theorem c11_render_fills_field_tokens_witness :
    renderPieces [Piece.token "CommonName".toList, Piece.text " issued to ".toList,
        Piece.token "CommonName".toList] =
      "<CommonName> issued to <CommonName>".toList ∧
    renderPieces ([Piece.token "CommonName".toList, Piece.text " issued to ".toList,
        Piece.token "CommonName".toList].map
        (Piece.fill [("KeyBits".toList, "2048".toList),
          ("CommonName".toList, "example.com".toList)])) =
      "example.com issued to example.com".toList ∧
    ReplaceTemplate
        [("KeyBits".toList, "2048".toList), ("CommonName".toList, "example.com".toList)]
        "<CommonName> issued to <CommonName>".toList =
      "example.com issued to example.com".toList :=
  ⟨by decide, by decide,
    (c11_render_fills_field_tokens
      [("KeyBits".toList, "2048".toList), ("CommonName".toList, "example.com".toList)]
      [Piece.token "CommonName".toList, Piece.text " issued to ".toList,
        Piece.token "CommonName".toList]
      (by decide) (by decide) (by decide)).1⟩

theorem replaceFrom_no_occurrence (old new : GoString) (s : GoString)
    (h : ¬ old <:+: s) : replaceFrom old new 0 s = s := by
  induction s with
  | nil => rfl
  | cons c cs ih =>
    have hp : old.isPrefixOf (c :: cs) = false := by
      cases hq : old.isPrefixOf (c :: cs) with
      | false => rfl
      | true => exact absurd (List.isPrefixOf_iff_prefix.mp hq).isInfix h
    have hcs : ¬ old <:+: cs := fun hi => h (List.infix_cons hi)
    simp only [replaceFrom, hp, ih hcs]
    simp

theorem replaceField_no_occurrence (text : GoString) (f : GoString × GoString)
    (h : ¬ ("<".toList ++ f.1 ++ ">".toList) <:+: text) : replaceField text f = text := by
  have hne : ("<".toList ++ f.1 ++ ">".toList : GoString) ≠ [] := by simp
  simp only [replaceField, ReplaceAll, hne, if_false]
  exact replaceFrom_no_occurrence _ _ _ h

theorem foldl_replaceField_no_occurrence (record : Record) (text : GoString)
    (h : ∀ f ∈ record, ¬ ("<".toList ++ f.1 ++ ">".toList) <:+: text) :
    record.foldl replaceField text = text := by
  induction record with
  | nil => rfl
  | cons f rest ih =>
    rw [List.foldl_cons, replaceField_no_occurrence text f (h f (List.mem_cons_self _ _))]
    exact ih (fun g hg => h g (List.mem_cons_of_mem _ hg))

/-- C12: for every record and every template text that contains no `<F>` for
any field name `F` of the record, `ReplaceTemplate` and `ReplaceCertificate`
return the template text unchanged; both are total functions with a text as
only result, so no error is raised. -/
theorem c12_template_without_field_tokens_unchanged (record : Record) (text : GoString)
    (h : ∀ f ∈ record, ¬ ("<".toList ++ f.1 ++ ">".toList) <:+: text) :
    ReplaceTemplate record text = text ∧ ReplaceCertificate record text = text :=
  ⟨foldl_replaceField_no_occurrence record text h,
    foldl_replaceField_no_occurrence record text h⟩

/-- C12 at a template with a token of no field and a token that differs from a
field name in case only. -/
theorem c12_template_without_field_tokens_unchanged_witness :
    (∀ f ∈ [("CommonName".toList, "example.com".toList), ("KeyBits".toList, "2048".toList)],
      ¬ ("<".toList ++ f.1 ++ ">".toList) <:+: "<Missing> for <commonname>".toList) ∧
    ReplaceTemplate
        [("CommonName".toList, "example.com".toList), ("KeyBits".toList, "2048".toList)]
        "<Missing> for <commonname>".toList = "<Missing> for <commonname>".toList ∧
    ReplaceCertificate
        [("CommonName".toList, "example.com".toList), ("KeyBits".toList, "2048".toList)]
        "<Missing> for <commonname>".toList = "<Missing> for <commonname>".toList :=
  ⟨by decide,
    c12_template_without_field_tokens_unchanged
      [("CommonName".toList, "example.com".toList), ("KeyBits".toList, "2048".toList)]
      "<Missing> for <commonname>".toList (by decide)⟩

theorem Atoi_cases (s : GoString) :
    (∃ v, Atoi s = Except.ok v ∧ isInt64Text s = true) ∨
      (∃ e, Atoi s = Except.error e ∧ isInt64Text s = false) := by
  unfold Atoi ParseInt isInt64Text
  cases decimalValue s with
  | none => exact Or.inr ⟨_, rfl, rfl⟩
  | some v =>
    by_cases h : minInt64 ≤ v ∧ v ≤ maxInt64
    · exact Or.inl ⟨v, by simp [h], by simp [h]⟩
    · exact Or.inr ⟨NumError.errRange, by simp [h], by simp [h]⟩

/-- C13 (as amended): on a resource whose id has at least two `:` and whose
first `Revoked` value equals `true` ignoring case, `ParseRevokedCertificate`
returns an error exactly when `RevocationReasonCode` is missing or its first
value is not the decimal text of a signed 64-bit integer, or the same holds of
`RevocationDate`; with every error the returned record is the empty one. -/
theorem c13_error_iff_unreadable_field (sprintV : GoMap → GoString) (resource : GoMap)
    (fullID : GoString) (anns : List (GoString × GoString)) (revoked : GoString)
    (hid : (resource.index "id".toList).assertString = Except.ok fullID)
    (hcolons : 2 ≤ Count fullID ':')
    (hanns : annotationsOf resource = some anns)
    (hrevoked : firstValue "Revoked".toList anns = some revoked)
    (htrue : equalsIgnoringCase revoked "true".toList = true) :
    ∃ record err,
      ParseRevokedCertificate sprintV resource = Except.ok (record, err) ∧
      (err ≠ none ↔
        (hasInt64 "RevocationReasonCode".toList anns = false ∨
          hasInt64 "RevocationDate".toList anns = false)) ∧
      (err ≠ none → record = RevokedCertificate.empty) := by
  have hlow := (ToLower_eq_true_iff revoked).mpr htrue
  rw [ParseRevokedCertificate_decoded sprintV resource fullID anns hid hcolons hanns]
  simp only [hrevoked, hlow, ne_eq, not_true_eq_false, if_false, hasInt64]
  cases firstValue "RevocationReasonCode".toList anns with
  | none => exact ⟨_, _, rfl, by simp, fun _ => rfl⟩
  | some reasonCode =>
    cases firstValue "RevocationDate".toList anns with
    | none => exact ⟨_, _, rfl, by simp, fun _ => rfl⟩
    | some revocationDate =>
      dsimp only
      rcases Atoi_cases reasonCode with ⟨r, hr, hr2⟩ | ⟨e, hr, hr2⟩
      · rcases Atoi_cases revocationDate with ⟨d, hd, hd2⟩ | ⟨e, hd, hd2⟩
        · rw [hr, hd]
          exact ⟨_, _, rfl, by simp [hr2, hd2], fun h => absurd rfl h⟩
        · rw [hr, hd]
          exact ⟨_, _, rfl, by simp [hd2], fun _ => rfl⟩
      · rw [hr]
        exact ⟨_, _, rfl, by simp [hr2], fun _ => rfl⟩

/-- C13 (as amended) at a resource whose revocation date is not a number. -/
theorem c13_error_iff_unreadable_field_witness :
    ((mkResource "acct:variable:pki/certificates/1234"
        [("Revoked", "True"), ("RevocationReasonCode", "4"),
         ("RevocationDate", "yesterday")]).index "id".toList).assertString =
      Except.ok "acct:variable:pki/certificates/1234".toList ∧
    2 ≤ Count "acct:variable:pki/certificates/1234".toList ':' ∧
    equalsIgnoringCase "True".toList "true".toList = true ∧
    hasInt64 "RevocationDate".toList
      [("Revoked".toList, "True".toList), ("RevocationReasonCode".toList, "4".toList),
       ("RevocationDate".toList, "yesterday".toList)] = false ∧
    ParseRevokedCertificate sprintNone
      (mkResource "acct:variable:pki/certificates/1234"
        [("Revoked", "True"), ("RevocationReasonCode", "4"),
         ("RevocationDate", "yesterday")]) =
      Except.ok (RevokedCertificate.empty,
        some ⟨"Failed to cast RevocationDate \x27yesterday\x27 into an int".toList⟩) ∧
    (∃ record err,
      ParseRevokedCertificate sprintNone
        (mkResource "acct:variable:pki/certificates/1234"
          [("Revoked", "True"), ("RevocationReasonCode", "4"),
           ("RevocationDate", "yesterday")]) = Except.ok (record, err) ∧
      (err ≠ none ↔
        (hasInt64 "RevocationReasonCode".toList
            [("Revoked".toList, "True".toList), ("RevocationReasonCode".toList, "4".toList),
             ("RevocationDate".toList, "yesterday".toList)] = false ∨
          hasInt64 "RevocationDate".toList
            [("Revoked".toList, "True".toList), ("RevocationReasonCode".toList, "4".toList),
             ("RevocationDate".toList, "yesterday".toList)] = false)) ∧
      (err ≠ none → record = RevokedCertificate.empty)) :=
  ⟨by decide, by decide, by decide, by decide, by decide,
    c13_error_iff_unreadable_field sprintNone
      (mkResource "acct:variable:pki/certificates/1234"
        [("Revoked", "True"), ("RevocationReasonCode", "4"),
         ("RevocationDate", "yesterday")])
      "acct:variable:pki/certificates/1234".toList
      [("Revoked".toList, "True".toList), ("RevocationReasonCode".toList, "4".toList),
       ("RevocationDate".toList, "yesterday".toList)]
      "True".toList (by decide) (by decide) (by decide) (by decide) (by decide)⟩

/-- C13 as stated fails beyond 64 bits: both fields are present and are decimal
texts of integers, the date being 2^63, and yet an error is returned. -/
theorem c13_counterexample_date_beyond_int64 :
    equalsIgnoringCase "true".toList "true".toList = true ∧
    decimalValue "5".toList = some 5 ∧
    decimalValue "9223372036854775808".toList = some 9223372036854775808 ∧
    ParseRevokedCertificate sprintNone
      (mkResource "acct:variable:pki/certificates/1234"
        [("Revoked", "true"), ("RevocationReasonCode", "5"),
         ("RevocationDate", "9223372036854775808")]) =
      Except.ok (RevokedCertificate.empty,
        some ⟨"Failed to cast RevocationDate \x279223372036854775808\x27 into an int".toList⟩) := by
  decide

/-- C14: once the dial has succeeded with the list `certs` of peer
certificates, `getPem` returns normally; it returns an error exactly when
`certs` does not have two elements, and for two elements it returns, with no
error, the PEM `CERTIFICATE` text of the first followed by that of the
second. -/
theorem c14_getPem_needs_two_certificates
    (tlsDial : GoString → Except GoError (List Certificate))
    (pemEncode : GoString → List Nat → GoString) (url : GoString) (certs : List Certificate)
    (hdial : tlsDial (dialAddress url) = Except.ok certs) :
    ∃ out err,
      getPem tlsDial pemEncode url = Except.ok (out, err) ∧
      (err ≠ none ↔ certs.length ≠ 2) ∧
      (∀ first second, certs = [first, second] →
        out = pemEncode "CERTIFICATE".toList first.Raw ++
            pemEncode "CERTIFICATE".toList second.Raw ∧
          err = none) := by
  unfold getPem
  simp only [hdial]
  by_cases hlen : certs.length = 2
  · match certs, hlen with
    | [first, second], _ =>
      refine ⟨_, none, rfl, by simp, ?_⟩
      intro f s h
      simp only [List.cons.injEq, and_true] at h
      obtain ⟨rfl, rfl⟩ := h
      exact ⟨rfl, rfl⟩
  · refine ⟨[], _, by simp only [hlen, ne_eq, not_false_eq_true, if_true]; rfl, by simp [hlen], ?_⟩
    intro f s h
    rw [h] at hlen
    exact absurd rfl hlen

/-- C14 at a peer that offers two certificates and at one that offers one. -/
theorem c14_getPem_needs_two_certificates_witness :
    (∃ out err,
      getPem (fun _ => Except.ok [⟨[48, 1]⟩, ⟨[48, 2]⟩]) pemSample "https://conjur".toList =
        Except.ok (out, err) ∧
      (err ≠ none ↔ ([⟨[48, 1]⟩, ⟨[48, 2]⟩] : List Certificate).length ≠ 2) ∧
      (∀ first second, ([⟨[48, 1]⟩, ⟨[48, 2]⟩] : List Certificate) = [first, second] →
        out = pemSample "CERTIFICATE".toList first.Raw ++
            pemSample "CERTIFICATE".toList second.Raw ∧
          err = none)) ∧
    getPem (fun _ => Except.ok [⟨[48, 1]⟩, ⟨[48, 2]⟩]) pemSample "https://conjur".toList =
      Except.ok (pemSample "CERTIFICATE".toList [48, 1] ++ pemSample "CERTIFICATE".toList [48, 2],
        none) ∧
    getPem (fun _ => Except.ok [⟨[48, 1]⟩]) pemSample "https://conjur".toList =
      Except.ok ([], some ⟨("Invalid Conjur url \x27conjur:443\x27. " ++
        "Make sure hostname and port are correct").toList⟩) :=
  ⟨c14_getPem_needs_two_certificates (fun _ => Except.ok [⟨[48, 1]⟩, ⟨[48, 2]⟩]) pemSample
      "https://conjur".toList [⟨[48, 1]⟩, ⟨[48, 2]⟩] rfl,
    by decide, by decide⟩

theorem takeWhile_cons_afterFirst (sep : Char) (s : GoString) (h : sep ∈ s) :
    s.takeWhile (fun c => c ≠ sep) ++ sep :: afterFirst sep s = s := by
  induction s with
  | nil => simp at h
  | cons c cs ih =>
    by_cases hc : c = sep
    · simp [hc, afterFirst, List.takeWhile, List.dropWhile]
    · have hm : sep ∈ cs := by
        rcases List.mem_cons.mp h with e | e
        · exact absurd e.symm hc
        · exact e
      have := ih hm
      simp only [afterFirst] at this
      simp [hc, afterFirst, List.takeWhile, List.dropWhile]
      simpa using this

/-- C15: on every text with at least two `:`, `SplitConjurID` returns three
components, and `GetFullResourceID` of these components is the text itself. -/
theorem c15_full_resource_id_of_split (fullID : GoString) (h : 2 ≤ Count fullID ':') :
    ∃ account kind id,
      SplitConjurID fullID = Except.ok (account, kind, id) ∧
      GetFullResourceID account kind id = fullID := by
  have h1 : ':' ∈ fullID := (Count_pos_iff ':' fullID).mp (by omega)
  have h2 : ':' ∈ afterFirst ':' fullID :=
    (Count_pos_iff ':' _).mp (by rw [Count_afterFirst]; omega)
  refine ⟨_, _, _, SplitConjurID_of_two_colons fullID h, ?_⟩
  rw [GetFullResourceID_eq, idComponent, takeWhile_cons_afterFirst ':' _ h2,
    takeWhile_cons_afterFirst ':' _ h1]

/-- C15 at an id with further `:` and an empty kind. -/
theorem c15_full_resource_id_of_split_witness :
    2 ≤ Count "acct::pki/ca:root/12".toList ':' ∧
    SplitConjurID "acct::pki/ca:root/12".toList =
      Except.ok ("acct".toList, [], "pki/ca:root/12".toList) ∧
    GetFullResourceID "acct".toList [] "pki/ca:root/12".toList =
      "acct::pki/ca:root/12".toList ∧
    (∃ account kind id,
      SplitConjurID "acct::pki/ca:root/12".toList = Except.ok (account, kind, id) ∧
      GetFullResourceID account kind id = "acct::pki/ca:root/12".toList) :=
  ⟨by decide, by decide, by decide,
    c15_full_resource_id_of_split "acct::pki/ca:root/12".toList (by decide)⟩

/-- C16 at a failing input: on the certificate `1234`, marked revoked with the
reason code `abc`, the error is `Failed to cast RevocationReasonCode 'abc' into
an int`, a message in which the serial number `1234` does not occur; the
message for a missing reason code on the same certificate does name it. -/
theorem c16_cast_error_omits_serial_number :
    ParseRevokedCertificate sprintNone
      (mkResource "acct:variable:pki/certificates/1234"
        [("Revoked", "true"), ("RevocationReasonCode", "abc"),
         ("RevocationDate", "1700000000")]) =
      Except.ok (RevokedCertificate.empty,
        some ⟨"Failed to cast RevocationReasonCode \x27abc\x27 into an int".toList⟩) ∧
    ¬ "1234".toList <:+: "Failed to cast RevocationReasonCode \x27abc\x27 into an int".toList ∧
    ParseRevokedCertificate sprintNone
      (mkResource "acct:variable:pki/certificates/1234"
        [("Revoked", "true"), ("RevocationDate", "1700000000")]) =
      Except.ok (RevokedCertificate.empty,
        some ⟨("Failed to retrieve RevocationReasonCode from certificate \x271234\x27. " ++
          "Failed to find annotation \x27RevocationReasonCode\x27 on resource \x27map[]\x27").toList⟩) := by
  decide

/-- C17 at a failing input: for the url `https://host.example.com` the address
handed to `tls.Dial` is `ost.example.com:443`; the cutset trim removes the `h`
of the host name along with the scheme. -/
theorem c17_dial_address_loses_host_letters :
    dialAddress "https://host.example.com".toList = "ost.example.com:443".toList ∧
    TrimLeft "https://host.example.com".toList "https://".toList = "ost.example.com".toList ∧
    dialAddress "https://conjur.example.com".toList = "conjur.example.com:443".toList := by
  decide

/-- C18: on a resource whose id has at least two `:` and whose first `Revoked`
value equals `true` ignoring case, a record that `ParseRevokedCertificate`
returns without error is never the zero value `RevokedCertificate{}`: its
`RevocationDate` comes from `time.Unix` and carries the location `Local`, which
the zero `time.Time` does not. -/
theorem c18_revoked_record_is_not_empty (sprintV : GoMap → GoString) (resource : GoMap)
    (fullID : GoString) (anns : List (GoString × GoString)) (revoked : GoString)
    (record : RevokedCertificate)
    (hid : (resource.index "id".toList).assertString = Except.ok fullID)
    (hcolons : 2 ≤ Count fullID ':')
    (hanns : annotationsOf resource = some anns)
    (hrevoked : firstValue "Revoked".toList anns = some revoked)
    (htrue : equalsIgnoringCase revoked "true".toList = true)
    (hok : ParseRevokedCertificate sprintV resource = Except.ok (record, none)) :
    record ≠ RevokedCertificate.empty ∧ record.RevocationDate.loc = Location.Local := by
  have hlow := (ToLower_eq_true_iff revoked).mpr htrue
  rw [ParseRevokedCertificate_decoded sprintV resource fullID anns hid hcolons hanns] at hok
  simp only [hrevoked, hlow, ne_eq, not_true_eq_false, if_false] at hok
  have hok2 := Except.ok.inj hok
  have hloc : record.RevocationDate.loc = Location.Local := by
    cases h1 : firstValue "RevocationReasonCode".toList anns with
    | none =>
      rw [h1] at hok2
      cases hok2
    | some reasonCode =>
      cases h2 : firstValue "RevocationDate".toList anns with
      | none =>
        rw [h1, h2] at hok2
        cases hok2
      | some revocationDate =>
        rw [h1, h2] at hok2
        dsimp only at hok2
        cases h3 : Atoi reasonCode with
        | error e =>
          rw [h3] at hok2
          cases hok2
        | ok r =>
          cases h4 : Atoi revocationDate with
          | error e =>
            rw [h3, h4] at hok2
            cases hok2
          | ok d =>
            rw [h3, h4] at hok2
            cases hok2
            rfl
  refine ⟨?_, hloc⟩
  intro hempty
  rw [hempty] at hloc
  cases hloc

/-- C18 at the resource whose revoked record is closest to the zero value: an
empty serial number, the reason code 0 and the date of the zero instant. -/
theorem c18_revoked_record_is_not_empty_witness :
    ((mkResource "acct:variable:"
        [("Revoked", "true"), ("RevocationReasonCode", "0"),
         ("RevocationDate", "-62135596800")]).index "id".toList).assertString =
      Except.ok "acct:variable:".toList ∧
    2 ≤ Count "acct:variable:".toList ':' ∧
    equalsIgnoringCase "true".toList "true".toList = true ∧
    ParseRevokedCertificate sprintNone
      (mkResource "acct:variable:"
        [("Revoked", "true"), ("RevocationReasonCode", "0"),
         ("RevocationDate", "-62135596800")]) =
      Except.ok ({ SerialNumber := [], ReasonCode := 0,
                   RevocationDate := { ext := 0, nsec := 0, loc := Location.Local } }, none) ∧
    (({ SerialNumber := [], ReasonCode := 0,
        RevocationDate := { ext := 0, nsec := 0, loc := Location.Local } } : RevokedCertificate) ≠
        RevokedCertificate.empty ∧
      ({ SerialNumber := [], ReasonCode := 0,
         RevocationDate := { ext := 0, nsec := 0, loc := Location.Local } } :
          RevokedCertificate).RevocationDate.loc = Location.Local) :=
  ⟨by decide, by decide, by decide, by decide,
    c18_revoked_record_is_not_empty sprintNone
      (mkResource "acct:variable:"
        [("Revoked", "true"), ("RevocationReasonCode", "0"),
         ("RevocationDate", "-62135596800")])
      "acct:variable:".toList
      [("Revoked".toList, "true".toList), ("RevocationReasonCode".toList, "0".toList),
       ("RevocationDate".toList, "-62135596800".toList)]
      "true".toList
      { SerialNumber := [], ReasonCode := 0,
        RevocationDate := { ext := 0, nsec := 0, loc := Location.Local } }
      (by decide) (by decide) (by decide) (by decide) (by decide) (by decide)⟩

theorem afterLast_suffix (sep : Char) (s : GoString) : afterLast sep s <:+ s := by
  have h : s.reverse.takeWhile (fun c => c ≠ sep) <+: s.reverse := List.takeWhile_prefix _
  have h2 := List.reverse_suffix.mpr h
  rw [List.reverse_reverse] at h2
  exact h2

theorem not_mem_afterLast (sep : Char) (s : GoString) : sep ∉ afterLast sep s := by
  intro h
  have h2 : sep ∈ s.reverse.takeWhile (fun c => c ≠ sep) := List.mem_reverse.mp h
  have := List.mem_takeWhile_imp h2
  simp at this

/-- C20: on a resource whose id is a string with at least two `:` and whose
annotation list is well typed, `ParseRevokedCertificate` returns normally, a
record or an error, with no panic: splitting the id component on `/` yields at
least one segment, the last one is read within range, and this serial number is
a suffix of the id component without `/`, the whole id component when that has
no `/`; it is the serial number of every record returned for a revoked
certificate. -/
theorem c20_parse_returns_normally (sprintV : GoMap → GoString) (resource : GoMap)
    (fullID : GoString) (anns : List (GoString × GoString))
    (hid : (resource.index "id".toList).assertString = Except.ok fullID)
    (hcolons : 2 ≤ Count fullID ':')
    (hanns : annotationsOf resource = some anns) :
    (∃ record err, ParseRevokedCertificate sprintV resource = Except.ok (record, err)) ∧
    (∃ account kind, SplitConjurID fullID = Except.ok (account, kind, idComponent fullID)) ∧
    1 ≤ (Split '/' (idComponent fullID)).length ∧
    ∃ serial,
      sliceIndex (Split '/' (idComponent fullID))
          ((Split '/' (idComponent fullID)).length - 1) = Except.ok serial ∧
      serial <:+ idComponent fullID ∧
      '/' ∉ serial ∧
      ('/' ∉ idComponent fullID → serial = idComponent fullID) ∧
      (∀ record, ParseRevokedCertificate sprintV resource = Except.ok (record, none) →
        record = RevokedCertificate.empty ∨ record.SerialNumber = serial) := by
  have hparse := ParseRevokedCertificate_decoded sprintV resource fullID anns hid hcolons hanns
  refine ⟨⟨_, _, hparse⟩, ⟨_, _, SplitConjurID_of_two_colons fullID hcolons⟩, ?_,
    afterLast '/' (idComponent fullID),
    sliceIndex_last _ _ (Split_getLast '/' (idComponent fullID)),
    afterLast_suffix '/' _, not_mem_afterLast '/' _, afterLast_of_not_mem '/' _, ?_⟩
  · have hne := SplitN_ne_nil '/' (idComponent fullID) (Count (idComponent fullID) '/')
    unfold Split
    cases hS : SplitN '/' (idComponent fullID) (Count (idComponent fullID) '/' + 1) with
    | nil => exact absurd hS hne
    | cons a l => simp
  · intro record hrec
    rw [hparse] at hrec
    have hrec2 := Except.ok.inj hrec
    cases h0 : firstValue "Revoked".toList anns with
    | none =>
      rw [h0] at hrec2
      cases hrec2
    | some revoked =>
      rw [h0] at hrec2
      dsimp only at hrec2
      by_cases ht : ToLower revoked = "true".toList
      · simp only [ht, ne_eq, not_true_eq_false, if_false] at hrec2
        cases h1 : firstValue "RevocationReasonCode".toList anns with
        | none =>
          rw [h1] at hrec2
          cases hrec2
        | some reasonCode =>
          cases h2 : firstValue "RevocationDate".toList anns with
          | none =>
            rw [h1, h2] at hrec2
            cases hrec2
          | some revocationDate =>
            rw [h1, h2] at hrec2
            dsimp only at hrec2
            cases h3 : Atoi reasonCode with
            | error e =>
              rw [h3] at hrec2
              cases hrec2
            | ok r =>
              cases h4 : Atoi revocationDate with
              | error e =>
                rw [h3, h4] at hrec2
                cases hrec2
              | ok d =>
                rw [h3, h4] at hrec2
                cases hrec2
                exact Or.inr rfl
      · simp only [ht, ne_eq, not_false_eq_true, if_true] at hrec2
        cases hrec2
        exact Or.inl rfl

/-- C20 at an id component with several `/` and at one with none. -/
theorem c20_parse_returns_normally_witness :
    ((mkResource "acct:variable:pki/certificates/1234" []).index "id".toList).assertString =
      Except.ok "acct:variable:pki/certificates/1234".toList ∧
    2 ≤ Count "acct:variable:pki/certificates/1234".toList ':' ∧
    idComponent "acct:variable:pki/certificates/1234".toList = "pki/certificates/1234".toList ∧
    Split '/' "pki/certificates/1234".toList =
      ["pki".toList, "certificates".toList, "1234".toList] ∧
    Split '/' "1234".toList = ["1234".toList] ∧
    Split '/' [] = [[]] ∧
    ((∃ record err,
        ParseRevokedCertificate sprintNone
          (mkResource "acct:variable:pki/certificates/1234" []) = Except.ok (record, err)) ∧
      (∃ account kind,
        SplitConjurID "acct:variable:pki/certificates/1234".toList =
          Except.ok (account, kind, idComponent "acct:variable:pki/certificates/1234".toList)) ∧
      1 ≤ (Split '/' (idComponent "acct:variable:pki/certificates/1234".toList)).length ∧
      ∃ serial,
        sliceIndex (Split '/' (idComponent "acct:variable:pki/certificates/1234".toList))
            ((Split '/' (idComponent "acct:variable:pki/certificates/1234".toList)).length - 1) =
          Except.ok serial ∧
        serial <:+ idComponent "acct:variable:pki/certificates/1234".toList ∧
        '/' ∉ serial ∧
        ('/' ∉ idComponent "acct:variable:pki/certificates/1234".toList →
          serial = idComponent "acct:variable:pki/certificates/1234".toList) ∧
        (∀ record,
          ParseRevokedCertificate sprintNone
            (mkResource "acct:variable:pki/certificates/1234" []) = Except.ok (record, none) →
          record = RevokedCertificate.empty ∨ record.SerialNumber = serial)) :=
  ⟨by decide, by decide, by decide, by decide, by decide, by decide,
    c20_parse_returns_normally sprintNone
      (mkResource "acct:variable:pki/certificates/1234" [])
      "acct:variable:pki/certificates/1234".toList [] (by decide) (by decide) (by decide)⟩

end Conjur
